import Mathlib

/-!
# Remind: calendar generation (`calendar.c`) and utilities (`utils.c`)

A shallow embedding of the C sources.  C `int` values are `Int`; `/` and `%`
are the truncating `Int.tdiv` and `Int.tmod`; C strings are Lean strings or
lists of characters; static output buffers are returned by value.
-/

namespace Remind

/-! ## Constants of `custom.h` -/

/-- The base year for date calculation (`custom.h`). -/
def BASE : Int := 1990

/-- The range of years allowed (`custom.h`). -/
def YR_RANGE : Int := 88

/-- Maximum length of a passthru keyword (`custom.h`). -/
def PASSTHRU_LEN : Nat := 24

/-- Modelled from the spec: `MINUTES_PER_DAY` is defined in a header that is not among
the sources; the glossary fixes a minute-of-day as an index in 0-1439, so a day has
1440 minutes. -/
def MINUTES_PER_DAY : Int := 1440

/-! ## `sprintf` conversions -/

/-- The conversion `%d` of `sprintf`. -/
def fmtD (n : Int) : String := toString n

/-- The conversion `%02d` of `sprintf`: the decimal rendering, padded on the left with
zeros to a width of two (a minus sign counts towards the width). -/
def fmt02d (n : Int) : String :=
  let s := toString n
  if s.length < 2 then "0" ++ s else s

/-- The conversion `%c` of `sprintf`. -/
def fmtC (c : Char) : String := String.singleton c

/-! ## Time formatting (`calendar.c`) -/

/-- Values of the global `ScFormat`.  The two `switch` statements on it have the cases
`SC_AMPM` and `SC_MIL` and no default case. -/
inductive ScFmt where
  | SC_AMPM
  | SC_MIL
  | other
deriving DecidableEq, Repr

/-- The globals and macros that `SimpleTime` and `CalendarTime` read.  `NO_TIME`, `L_AM`
and `L_PM` are macros of headers that are not among the sources and are taken as
parameters. -/
structure TimeCfg where
  NO_TIME : Int
  ScFormat : ScFmt
  TimeSep : Char
  L_AM : String
  L_PM : String

/-- `SimpleTime` of `calendar.c`: the contents of the static buffer on return. -/
def SimpleTime (c : TimeCfg) (tim : Int) : String :=
  match c.ScFormat with
  | .SC_AMPM =>
    if tim ≠ c.NO_TIME then
      let h := Int.tdiv tim 60
      let min := Int.tmod tim 60
      let hh := if h = 0 then 12 else if h > 12 then h - 12 else h
      fmtD hh ++ fmtC c.TimeSep ++ fmt02d min ++ (if h ≥ 12 then c.L_PM else c.L_AM) ++ " "
    else ""
  | .SC_MIL =>
    if tim ≠ c.NO_TIME then
      let h := Int.tdiv tim 60
      let min := Int.tmod tim 60
      fmt02d h ++ fmtC c.TimeSep ++ fmt02d min ++ " "
    else ""
  | .other => ""

/-- `CalendarTime` of `calendar.c`: the contents of the returned buffer. -/
def CalendarTime (c : TimeCfg) (tim duration : Int) : String :=
  if duration = c.NO_TIME then SimpleTime c tim
  else if tim = c.NO_TIME then ""
  else
    let h := Int.tdiv tim 60
    let min := Int.tmod tim 60
    let hh := if h = 0 then 12 else if h > 12 then h - 12 else h
    let newtim0 := tim + duration
    let days := Int.tdiv newtim0 MINUTES_PER_DAY
    let newtim := Int.tmod newtim0 MINUTES_PER_DAY
    let h2 := Int.tdiv newtim 60
    let min2 := Int.tmod newtim 60
    let hh2 := if h2 = 0 then 12 else if h2 > 12 then h2 - 12 else h2
    let daybuf := if days ≠ 0 then "+" ++ fmtD days else ""
    let ampm1 := if h ≥ 12 then c.L_PM else c.L_AM
    let ampm2 := if h2 ≥ 12 then c.L_PM else c.L_AM
    let ampm1 := if days = 0 then (if ampm1 = ampm2 then "" else ampm1) else ampm1
    match c.ScFormat with
    | .SC_AMPM =>
      fmtD hh ++ fmtC c.TimeSep ++ fmt02d min ++ ampm1 ++ "-" ++
        fmtD hh2 ++ fmtC c.TimeSep ++ fmt02d min2 ++ ampm2 ++ daybuf ++ " "
    | .SC_MIL =>
      fmt02d h ++ fmtC c.TimeSep ++ fmt02d min ++ "-" ++
        fmt02d h2 ++ fmtC c.TimeSep ++ fmt02d min2 ++ daybuf ++ " "
    | .other => ""

/-- The two decimal digits of a number below 100, tens first. -/
def twoDigits (n : Nat) : String :=
  String.mk [Nat.digitChar (n / 10), Nat.digitChar (n % 10)]

/-- A clock reading `HH:MM` of a minute-of-day, with separator `sep`. -/
def clock (sep : Char) (m : Nat) : String :=
  twoDigits (m / 60) ++ String.singleton sep ++ twoDigits (m % 60)

/-- A 24-hour configuration with `:` as separator, used for concrete evaluations. -/
def milCfg : TimeCfg :=
  { NO_TIME := 2147483647, ScFormat := .SC_MIL, TimeSep := ':', L_AM := "am", L_PM := "pm" }

/-! ## Data model of `calendar.c`

The structure types `Trigger`, `TimeTrig`, `Token` and `Value`, the reminder-type macros and
the error codes are declared in headers that are not among the sources; they are modelled
with the fields and the names that `calendar.c` uses. -/

/-- Reminder types: the values that `trig.typ` is compared with. -/
inductive RemType where
  | NO_TYPE | MSG_TYPE | RUN_TYPE | CAL_TYPE | SAT_TYPE | PS_TYPE | PSF_TYPE | MSF_TYPE
  | PASSTHRU_TYPE
deriving DecidableEq, Repr

/-- Return codes: `OK`, the error codes that `calendar.c` names, and every other one. -/
inductive Code where
  | OK | E_NO_MEM | E_EOLN | E_PARSE_ERR | E_EXPIRED | E_RUN_DISABLED
  | E_EOF | E_PARSE_AS_REM | E_ERR_READING
  | other (n : Nat)
deriving DecidableEq, Repr

/-- The substitution modes that `DoCalRem` passes to `DoSubst`. -/
inductive SubstMode where
  | CAL_MODE | ADVANCE_MODE
deriving DecidableEq, Repr

/-- A token as `FindToken` classifies it; `val` is read only for a `T_RemType` token. -/
inductive Token where
  | T_Empty
  | T_Comment
  | T_RemType (val : RemType)
  | T_Other
deriving DecidableEq, Repr

/-- The fields of `Trigger` that `DoCalRem` reads or writes. -/
structure Trigger where
  typ : RemType
  passthru : String
  scanfrom : Int
  priority : Int
  tags : String
deriving DecidableEq, Repr

/-- The fields of `TimeTrig` that `DoCalRem` reads. -/
structure TimeTrig where
  ttime : Int
  duration : Int
deriving DecidableEq, Repr

/-- A value of the expression evaluator; `str` is the `v.v.str` of a string value. -/
structure Value where
  type : Int
  str : String
deriving DecidableEq, Repr

/-- `CalEntry` of `calendar.c`, without the link: a column is the list of its entries in
link order.  `pos` starts equal to `text`; the wide-character copies are left out. -/
structure CalEntry where
  text : String
  raw_text : String
  is_color : Int
  r : Int
  g : Int
  b : Int
  time : Int
  priority : Int
  tags : String
  passthru : String
  duration : Int
  filename : String
  lineno : Int
  trig : Trigger
  tt : TimeTrig
  nonconst_expr : Int
  if_depth : Int
deriving DecidableEq, Repr

/-- The places where `DoCalRem` checks an allocation: the checked `DBufPuts` calls, `NEW`
and the three `StrDup` calls. -/
inductive AllocSite where
  | raw_buf | obuf_time | calprefix_put | calsuffix_put | entry | text | raw_text | filename
deriving DecidableEq, Repr

/-- The calls into the expression evaluator and the substitution engine, as logged. -/
inductive Call where
  | UserFuncExists (name : String)
  | EvalExpr (expr : String)
  | DoCoerce
  | DoSubst (jul : Int) (mode : SubstMode)
deriving DecidableEq, Repr

/-- The globals that `DoCalRem`, `SortCol` and the time formatters read. -/
structure World extends TimeCfg where
  DefaultColorR : Int
  DefaultColorG : Int
  DefaultColorB : Int
  DontIssueAts : Int
  PsCal : Int
  DoSimpleCalendar : Int
  DoSimpleCalDelta : Int
  JulianToday : Int
  NumTriggered : Int
  SynthesizeTags : Int
  FileName : String
  LineNo : Int
  CurLine : String
  NumIfs : Int
  SortByDate : Int
  SortByTime : Int
  SortByPrio : Int
  UntimedBeforeTimed : Int

/-- What the rest of the program answers when `calendar.c` calls it: the functions of other
files, the parser state, the allocator and the bytes of uninitialised locals.  `ParseToken`
is indexed by the number of earlier `ParseToken` calls of the same `DoCalRem` call. -/
structure Ext where
  ParseRem : Code × Trigger × TimeTrig
  DoSatRemind : Trigger → TimeTrig → Code × Trigger × TimeTrig
  LastTrigValid : Nat → Int
  LastTriggerDate : Int
  ParseToken : Nat → Code × String
  FindToken : String → Token
  ComputeTrigger : Int → Trigger → TimeTrig → Int × Code × Trigger × TimeTrig
  ShouldTriggerReminder : Trigger → TimeTrig → Int → Int
  UserFuncExists : String → Int
  EvalExpr : String → Code × Value
  DoCoerce : Value → Code × Value
  DoSubst : Trigger → TimeTrig → Int → SubstMode → Code × String
  p_isnested : Int
  p_pos : String
  p_nonconst_expr : Int
  allocFails : AllocSite → Bool
  uninit : Int × Int × Int
  sscanf3 : String → Int × Int × Int → Int × Int × Int
  isempty : Char → Bool
  CompareRems : Int → Int → Int → Int → Int → Int → Int → Int → Int → Int → Int
  AppendTag : String → String → String
  MD5 : String → Int → String → List Nat

/-! ## `SortCol` -/

/-- The comparison `SortCol` makes between an entry and its successor. -/
def cmpEntries (w : World) (x : Ext) (cur next : CalEntry) : Int :=
  x.CompareRems 0 cur.time cur.priority 0 next.time next.priority
    w.SortByDate w.SortByTime w.SortByPrio w.UntimedBeforeTimed

/-- `SortCol` of `calendar.c` on the column `cur :: rest` (the function dereferences the
head of the column unconditionally): while `cur` has a successor that `CompareRems` does not
put strictly after it (`<= 0`), the two are swapped. -/
def SortCol (w : World) (x : Ext) (cur : CalEntry) : List CalEntry → List CalEntry
  | [] => [cur]
  | next :: rest =>
    if cmpEntries w x cur next ≤ 0 then next :: SortCol w x cur rest
    else cur :: next :: rest

/-! ## `SynthesizeTag` -/

/-- The conversion `%02x` of `sprintf` for an unsigned value. -/
def fmt02x (n : Nat) : String :=
  let s := String.mk (Nat.toDigits 16 n)
  if s.length < 2 then "0" ++ s else s

/-- `SynthesizeTag` of `calendar.c`: `__syn__` followed by the 16 bytes of the MD5 digest of
file name, line number and current line, in hexadecimal. -/
def SynthesizeTag (w : World) (x : Ext) : String :=
  let buf := x.MD5 w.FileName w.LineNo w.CurLine
  "__syn__" ++ String.join ((List.range 16).map (fun i => fmt02x (buf.getD i 0)))

/-! ## `DoCalRem` -/

/-- Where a block of `DoCalRem` ends: at a `return`, or at its last line with the values of
the locals it leaves. -/
inductive Step (α : Type) where
  | ret (r : Code)
  | go (a : α)

/-- The locals of `DoCalRem` after the trigger date is known (line 1196). -/
structure Triggered where
  trig : Trigger
  tim : TimeTrig
  jul : Int
  is_color : Int
  col_r : Int
  col_g : Int
  col_b : Int
  ntok : Nat

/-- The locals of `DoCalRem` when it decides whether to add an entry (line 1270). -/
structure Resolved where
  trig : Trigger
  tim : TimeTrig
  jul : Int
  is_color : Int
  col_r : Int
  col_g : Int
  col_b : Int
  pre_buf : String
  nonconst_expr : Int

/-- What a call of `DoCalRem` leaves: the value returned, `CalColumn[col]`, `NumTriggered`,
and for reference the entry it allocated and linked, the logged calls and the final
contents of `obuf`. -/
structure CalRemResult where
  ret : Code
  column : List CalEntry
  NumTriggered : Int
  calls : List Call
  entry : Option CalEntry
  obuf : String

/-- `StrnCpy(dest, source, n)` with `n > 0` into a buffer of at least `n + 1` bytes, as a
string: the first `n` characters of `source`. -/
def StrnCpy.str (source : String) (n : Nat) : String :=
  String.mk (source.toList.take n)

/-- Whether a reminder type is one of `MSG_TYPE`, `CAL_TYPE`, `MSF_TYPE`. -/
def isPlain (t : RemType) : Bool :=
  t = .MSG_TYPE || t = .CAL_TYPE || t = .MSF_TYPE

/-- Clamping of a colour component to 0..255 (lines 1258-1263). -/
def clampColor (c : Int) : Int :=
  if c < 0 then 0 else if c > 255 then 255 else c

/-- Lines 1117-1196 of `DoCalRem`: parse the reminder and find its trigger date. -/
def DoCalRem.trigger (w : World) (x : Ext) : Step Triggered :=
  let (r, trig, tim) := x.ParseRem
  if r ≠ .OK then .ret r else
  let is_color : Int :=
    if isPlain trig.typ then
      (if w.DefaultColorR ≠ -1 ∧ w.DefaultColorG ≠ -1 ∧ w.DefaultColorB ≠ -1 then 1 else 0)
    else 0
  let (col_r, col_g, col_b) :=
    if isPlain trig.typ ∧ is_color ≠ 0 then (w.DefaultColorR, w.DefaultColorG, w.DefaultColorB)
    else x.uninit
  if w.DontIssueAts ≠ 0 ∧ tim.ttime ≠ w.NO_TIME then .ret .OK else
  if trig.typ = .NO_TYPE then .ret .E_EOLN else
  if trig.typ = .SAT_TYPE then
    let (r, trig, tim) := x.DoSatRemind trig tim
    if r ≠ .OK then (if r = .E_EXPIRED then .ret .OK else .ret r) else
    if x.LastTrigValid 0 = 0 then .ret .OK else
    let (r, buf) := x.ParseToken 0
    if r ≠ .OK then .ret r else
    match x.FindToken buf with
    | .T_Empty => .ret .OK
    | .T_Comment => .ret .OK
    | .T_Other => .ret .E_PARSE_ERR
    | .T_RemType val =>
      if val = .SAT_TYPE then .ret .E_PARSE_ERR else
      if val = .PASSTHRU_TYPE then
        let (r, buf) := x.ParseToken 1
        if r ≠ .OK then .ret r else
        if buf.length = 0 then .ret .E_EOLN else
        let trig := { trig with passthru := StrnCpy.str buf PASSTHRU_LEN, typ := val }
        if x.LastTrigValid 1 = 0 then .ret .OK else
        .go ⟨trig, tim, x.LastTriggerDate, is_color, col_r, col_g, col_b, 2⟩
      else
        let trig := { trig with typ := val }
        if x.LastTrigValid 1 = 0 then .ret .OK else
        .go ⟨trig, tim, x.LastTriggerDate, is_color, col_r, col_g, col_b, 1⟩
  else
    let (jul, r, trig, tim) := x.ComputeTrigger trig.scanfrom trig tim
    if r ≠ .OK then .ret r else
    .go ⟨trig, tim, jul, is_color, col_r, col_g, col_b, 0⟩

/-- Lines 1198-1268 of `DoCalRem`: PS and PSF become PASSTHRU, the default colour and the
colour numbers of a COLOR special go to `pre_buf`. -/
def DoCalRem.special (w : World) (x : Ext) (s : Triggered) : Step Resolved :=
  let nonconst_expr := x.p_nonconst_expr
  let trig : Trigger :=
    if s.trig.typ = .PS_TYPE then { s.trig with passthru := "PostScript", typ := .PASSTHRU_TYPE }
    else if s.trig.typ = .PSF_TYPE then { s.trig with passthru := "PSFile", typ := .PASSTHRU_TYPE }
    else s.trig
  let addDefault : Bool := isPlain trig.typ && decide (w.PsCal ≠ 0) && decide (s.is_color ≠ 0)
  let pre_buf : String :=
    if addDefault then fmtD s.col_r ++ " " ++ fmtD s.col_g ++ " " ++ fmtD s.col_b ++ " " else ""
  let trig : Trigger := if addDefault then { trig with passthru := "COLOR" } else trig
  if trig.typ = .PASSTHRU_TYPE then
    if w.PsCal = 0 ∧ trig.passthru ≠ "COLOR" ∧ trig.passthru ≠ "COLOUR" then .ret .OK else
    if trig.passthru = "COLOR" ∨ trig.passthru = "COLOUR" then
      let (r1, b1) := x.ParseToken s.ntok
      let pre_buf := pre_buf ++ b1 ++ " "
      if r1 ≠ .OK then .ret r1 else
      let (r2, b2) := x.ParseToken (s.ntok + 1)
      let pre_buf := pre_buf ++ b2 ++ " "
      if r2 ≠ .OK then .ret r2 else
      let (r3, b3) := x.ParseToken (s.ntok + 2)
      let pre_buf := pre_buf ++ b3 ++ " "
      if r3 ≠ .OK then .ret r3 else
      let (col_r, col_g, col_b) := x.sscanf3 pre_buf (s.col_r, s.col_g, s.col_b)
      let pre_buf := if w.PsCal = 0 ∧ w.DoSimpleCalendar = 0 then "" else pre_buf
      .go ⟨trig, s.tim, s.jul, 1, clampColor col_r, clampColor col_g, clampColor col_b,
        pre_buf, nonconst_expr⟩
    else
      .go ⟨trig, s.tim, s.jul, s.is_color, s.col_r, s.col_g, s.col_b, pre_buf, nonconst_expr⟩
  else
    .go ⟨trig, s.tim, s.jul, s.is_color, s.col_r, s.col_g, s.col_b, pre_buf, nonconst_expr⟩

/-- Lines 1117-1268 of `DoCalRem`. -/
def DoCalRem.resolve (w : World) (x : Ext) : Step Resolved :=
  match DoCalRem.trigger w x with
  | .ret r => .ret r
  | .go s => DoCalRem.special w x s

/-- Whether the reminder is a PASSTHRU special other than COLOR and COLOUR. -/
def nonColorSpecial (trig : Trigger) : Bool :=
  trig.typ = .PASSTHRU_TYPE && trig.passthru ≠ "COLOUR" && trig.passthru ≠ "COLOR"

/-- Lines 1286-1308 of `DoCalRem`: the time text that is put at the start of `obuf`. -/
def DoCalRem.timePrefix (w : World) (trig : Trigger) (tim : TimeTrig) (jul : Int) : String :=
  if w.DoSimpleCalendar ≠ 0 ∨ tim.ttime ≠ w.NO_TIME then
    if jul ≠ w.JulianToday ∨ nonColorSpecial trig = true then SimpleTime w.toTimeCfg w.NO_TIME
    else CalendarTime w.toTimeCfg tim.ttime tim.duration
  else ""

/-- Lines 1331-1337 of `DoCalRem`: the mode in which the body is substituted. -/
def DoCalRem.substMode (w : World) (jul : Int) : SubstMode :=
  if jul ≠ w.JulianToday then .ADVANCE_MODE else .CAL_MODE

/-- Lines 1309-1328 and 1352-1371 of `DoCalRem`, the same code for `calprefix` and
`calsuffix`: the text appended to `obuf` (`none` when `DBufPuts` fails and `E_NO_MEM` is
returned) and the calls made. -/
def DoCalRem.hook (x : Ext) (name : String) (site : AllocSite) (trig : Trigger) :
    Option String × List Call :=
  if trig.typ ≠ .PASSTHRU_TYPE then
    if x.UserFuncExists name = 1 then
      let evalBuf := name ++ "(" ++ fmtD trig.priority ++ ")"
      let rv := x.EvalExpr evalBuf
      if rv.1 = .OK then
        let rv2 := x.DoCoerce rv.2
        if rv2.1 = .OK then
          if x.allocFails site = true then
            (none, [.UserFuncExists name, .EvalExpr evalBuf, .DoCoerce])
          else (some rv2.2.str, [.UserFuncExists name, .EvalExpr evalBuf, .DoCoerce])
        else (some "", [.UserFuncExists name, .EvalExpr evalBuf, .DoCoerce])
      else (some "", [.UserFuncExists name, .EvalExpr evalBuf])
    else (some "", [.UserFuncExists name])
  else (some "", [])

/-- Line 1373 of `DoCalRem`: leading characters that `isempty` accepts are skipped unless
a simple calendar is produced. -/
def DoCalRem.skipEmpty (w : World) (x : Ext) (s : String) : String :=
  if w.DoSimpleCalendar = 0 then String.mk (s.toList.dropWhile x.isempty) else s

/-- The raw text that `DoCalRem` saves (lines 1278-1285). -/
def DoCalRem.rawText (x : Ext) : String :=
  if x.p_isnested = 0 then x.p_pos else ""

/-- Lines 1384-1438 of `DoCalRem`: the fields of the new entry, from the locals, the saved
raw text and the final contents of `obuf`. -/
def DoCalRem.newEntry (w : World) (x : Ext) (s : Resolved) (raw_buf obuf : String) : CalEntry :=
  { text := s.pre_buf ++ DoCalRem.skipEmpty w x obuf
    raw_text := raw_buf
    is_color := s.is_color
    r := s.col_r
    g := s.col_g
    b := s.col_b
    time := if s.jul = w.JulianToday then s.tim.ttime else w.NO_TIME
    priority := s.trig.priority
    tags :=
      if w.SynthesizeTags ≠ 0 then x.AppendTag s.trig.tags (SynthesizeTag w x)
      else s.trig.tags
    passthru :=
      if s.trig.typ = .PASSTHRU_TYPE ∨ s.is_color ≠ 0 then
        StrnCpy.str s.trig.passthru PASSTHRU_LEN
      else ""
    duration := s.tim.duration
    filename := w.FileName
    lineno := w.LineNo
    trig := s.trig
    tt := s.tim
    nonconst_expr := s.nonconst_expr
    if_depth := w.NumIfs }

/-- Lines 1372-1443 of `DoCalRem`: allocate the entry, fill it, link it at the head of the
column and sort the column.  `nt` is `NumTriggered`, `calls` the calls logged so far. -/
def DoCalRem.link (w : World) (x : Ext) (CurCol : List CalEntry) (s : Resolved) (nt : Int)
    (raw_buf obuf : String) (calls : List Call) : CalRemResult :=
  if x.allocFails .entry = true then ⟨.E_NO_MEM, CurCol, nt, calls, none, ""⟩ else
  if x.allocFails .text = true ∨ x.allocFails .raw_text = true then
    ⟨.E_NO_MEM, CurCol, nt, calls, none, ""⟩ else
  if x.allocFails .filename = true then ⟨.E_NO_MEM, CurCol, nt, calls, none, ""⟩ else
  let e := DoCalRem.newEntry w x s raw_buf obuf
  ⟨.OK, SortCol w x e CurCol, nt, calls, some e, obuf⟩

/-- Lines 1329-1371 of `DoCalRem`: substitute the body behind `obuf` (time text and
`calprefix` text), append the `calsuffix` text, and go on to `DoCalRem.link`. -/
def DoCalRem.subst (w : World) (x : Ext) (CurCol : List CalEntry) (s : Resolved) (nt : Int)
    (raw_buf obuf : String) (calls : List Call) : CalRemResult :=
  let oldLen := obuf.length
  let mode := DoCalRem.substMode w s.jul
  let rb := x.DoSubst s.trig s.tim s.jul mode
  let calls := calls ++ [.DoSubst s.jul mode]
  if rb.1 ≠ .OK then ⟨rb.1, CurCol, nt, calls, none, ""⟩ else
  let obuf := obuf ++ rb.2
  if obuf.length ≤ oldLen then ⟨.OK, CurCol, nt, calls, none, ""⟩ else
  let h := DoCalRem.hook x "calsuffix" .calsuffix_put s.trig
  match h.1 with
  | none => ⟨.E_NO_MEM, CurCol, nt, calls ++ h.2, none, ""⟩
  | some suf => DoCalRem.link w x CurCol s nt raw_buf (obuf ++ suf) (calls ++ h.2)

/-- Lines 1270-1328 of `DoCalRem`: decide whether the reminder goes into the column, save
the raw text, put the time text and the `calprefix` text into `obuf`, and go on to
`DoCalRem.subst`. -/
def DoCalRem.addEntry (w : World) (x : Ext) (CurCol : List CalEntry) (s : Resolved) :
    CalRemResult :=
  if s.jul = w.JulianToday ∨
      (w.DoSimpleCalDelta ≠ 0 ∧ x.ShouldTriggerReminder s.trig s.tim s.jul ≠ 0) then
    let nt := w.NumTriggered + 1
    if x.p_isnested = 0 ∧ x.allocFails .raw_buf = true then
      ⟨.E_NO_MEM, CurCol, nt, [], none, ""⟩ else
    let raw_buf := DoCalRem.rawText x
    if (w.DoSimpleCalendar ≠ 0 ∨ s.tim.ttime ≠ w.NO_TIME) ∧ x.allocFails .obuf_time = true then
      ⟨.E_NO_MEM, CurCol, nt, [], none, ""⟩ else
    let obuf := DoCalRem.timePrefix w s.trig s.tim s.jul
    let h := DoCalRem.hook x "calprefix" .calprefix_put s.trig
    match h.1 with
    | none => ⟨.E_NO_MEM, CurCol, nt, h.2, none, ""⟩
    | some pre => DoCalRem.subst w x CurCol s nt raw_buf (obuf ++ pre) h.2
  else ⟨.OK, CurCol, w.NumTriggered, [], none, ""⟩

/-- `DoCalRem` of `calendar.c`, called with `CalColumn[col]` equal to `CurCol`. -/
def DoCalRem (w : World) (x : Ext) (CurCol : List CalEntry) : CalRemResult :=
  match DoCalRem.resolve w x with
  | .ret r => ⟨r, CurCol, w.NumTriggered, [], none, ""⟩
  | .go s => DoCalRem.addEntry w x CurCol s

/-! ## Utility functions (`utils.c`)

A `char const *` argument is the list of the bytes found from the pointer on; the memory
after the last byte of the list reads as NUL, so the C string it points to ends at the first
NUL of the list or at its end. -/

/-- The terminating byte of a C string. -/
def NUL : Char := Char.ofNat 0

/-- Writable memory: the byte at each address. -/
abbrev Mem := Int → Char

/-- The byte `*s`. -/
def deref (s : List Char) : Char := s.headD NUL

/-- The function `strlen` of the C library. -/
def strlen : List Char → Nat
  | [] => 0
  | c :: cs => if c = NUL then 0 else strlen cs + 1

/-- The macro `UPPER`, that is `toupper` in the C locale, as an `int`. -/
def UPPER (c : Char) : Int := (c.toUpper.toNat : Int)

/-- The loop `while (n-- && (*dest++ = *source++)) ;` of `StrnCpy`: the final value of
`dest` and the memory. -/
def StrnCpy.loop : List Char → Int → Int → Mem → Int × Mem
  | [], n, dest, mem =>
    if n = 0 then (dest, mem) else (dest + 1, Function.update mem dest NUL)
  | c :: cs, n, dest, mem =>
    if n = 0 then (dest, mem)
    else if c = NUL then (dest + 1, Function.update mem dest NUL)
    else StrnCpy.loop cs (n - 1) (dest + 1) (Function.update mem dest c)

/-- `StrnCpy` of `utils.c`, with `source` outside the bytes written: the pointer returned
and the memory on return. -/
def StrnCpy (mem : Mem) (dest : Int) (source : List Char) (n : Int) : Int × Mem :=
  let odest := dest
  let (dest, mem) := StrnCpy.loop source n dest mem
  if mem (dest - 1) ≠ NUL then (odest, Function.update mem dest NUL) else (odest, mem)

/-- `StrinCmp` of `utils.c`. -/
def StrinCmp : List Char → List Char → Int → Int
  | c1 :: s1, c2 :: s2, n =>
    if n ≠ 0 ∧ c1 ≠ NUL ∧ c2 ≠ NUL then
      let r := UPPER c1 - UPPER c2
      if r ≠ 0 then r else StrinCmp s1 s2 (n - 1)
    else if n ≠ 0 then UPPER c1 - UPPER c2 else 0
  | s1, s2, n => if n ≠ 0 then UPPER (deref s1) - UPPER (deref s2) else 0

/-- `StrMatch` of `utils.c`. -/
def StrMatch (s1 s2 : List Char) (n : Int) : Int :=
  let l : Int := strlen s1
  if l < n then 0
  else if StrinCmp s1 s2 l = 0 then 1 else 0

/-- `StrCmpi` of `utils.c`. -/
def StrCmpi : List Char → List Char → Int
  | c1 :: s1, c2 :: s2 =>
    if c1 ≠ NUL ∧ c2 ≠ NUL then
      let r := UPPER c1 - UPPER c2
      if r ≠ 0 then r else StrCmpi s1 s2
    else UPPER c1 - UPPER c2
  | s1, s2 => UPPER (deref s1) - UPPER (deref s2)

/-- Modelled from the spec: the macro `IsLeapYear` is in a header that is not among the
sources; the leap years of the Gregorian calendar. -/
def IsLeapYear (y : Int) : Bool :=
  y % 4 = 0 && (y % 100 ≠ 0 || y % 400 = 0)

/-- Modelled from the spec: the table `MonthDays` is in a file that is not among the
sources; the days of the months of a common year, January first. -/
def MonthDays : List Int := [31, 28, 31, 30, 31, 30, 31, 31, 30, 31, 30, 31]

/-- Modelled from the spec: the macro `DaysInMonth(m, y)` is in a header that is not among
the sources; a pure query of the days of the zero-based month `m` of year `y`, accounting
for leap years.  It indexes a table of twelve months: outside 0..11 there is no value. -/
def DaysInMonth (m y : Int) : Option Int :=
  if 0 ≤ m ∧ m ≤ 11 then
    if m = 1 ∧ IsLeapYear y = true then some 29 else MonthDays.get? m.toNat
  else none

/-- `DateOK` of `utils.c`.  The operands of `||` are evaluated left to right and the
evaluation stops at the first that holds; the result is `none` if `DaysInMonth` is
evaluated where it has no value. -/
def DateOK (y m d : Int) : Option Int :=
  if d < 1 then some 0
  else if m < 0 then some 0
  else if y < BASE then some 0
  else if m > 11 then some 0
  else if y > BASE + YR_RANGE then some 0
  else match DaysInMonth m y with
    | none => none
    | some dim => if d > dim then some 0 else some 1

/-! ## Concrete inputs

A comparator, globals and answers of the surrounding program on which the definitions
above can be evaluated. -/

/-- A comparator with the parameter list of `CompareRems`: ascending by date, then time,
then priority; positive when the first reminder goes first. -/
def cmpAscending (dat1 tim1 prio1 dat2 tim2 prio2 : Int) (_bydate _bytime _byprio _untimed : Int) :
    Int :=
  if dat1 < dat2 then 1 else if dat1 > dat2 then -1
  else if tim1 < tim2 then 1 else if tim1 > tim2 then -1
  else if prio1 < prio2 then 1 else if prio1 > prio2 then -1
  else 0

/-- Appending to a comma-separated tag list. -/
def appendTagComma (tags tag : String) : String :=
  if tags = "" then tag else tags ++ "," ++ tag

/-- Globals of a plain text calendar for day 100, with tag synthesis switched on. -/
def w0 : World :=
  { NO_TIME := 2147483647, ScFormat := .SC_MIL, TimeSep := ':', L_AM := "am", L_PM := "pm"
    DefaultColorR := -1, DefaultColorG := -1, DefaultColorB := -1
    DontIssueAts := 0, PsCal := 0, DoSimpleCalendar := 0, DoSimpleCalDelta := 0
    JulianToday := 100, NumTriggered := 0, SynthesizeTags := 1
    FileName := "rem.txt", LineNo := 3, CurLine := "REM 11 Apr 1990 AT 10:00 TAG work MSG Meeting"
    NumIfs := 0, SortByDate := 0, SortByTime := 0, SortByPrio := 0, UntimedBeforeTimed := 0 }

/-- The trigger of `REM ... AT 10:00 TAG work MSG Meeting`. -/
def trig0 : Trigger :=
  { typ := .MSG_TYPE, passthru := "", scanfrom := 100, priority := 5000, tags := "work" }

/-- Answers of the surrounding program for the line of `w0`: the reminder parses, triggers
on day 100, its body is `Meeting`, no hook is defined and no allocation fails. -/
def x0 : Ext :=
  { ParseRem := (.OK, trig0, ⟨600, 2147483647⟩)
    DoSatRemind := fun t tt => (.OK, t, tt)
    LastTrigValid := fun _ => 1
    LastTriggerDate := 100
    ParseToken := fun _ => (.OK, "")
    FindToken := fun _ => .T_Empty
    ComputeTrigger := fun _ t tt => (100, .OK, t, tt)
    ShouldTriggerReminder := fun _ _ _ => 0
    UserFuncExists := fun _ => 0
    EvalExpr := fun _ => (.OK, ⟨0, ""⟩)
    DoCoerce := fun v => (.OK, v)
    DoSubst := fun _ _ _ _ => (.OK, "Meeting")
    p_isnested := 0
    p_pos := "Meeting"
    p_nonconst_expr := 0
    allocFails := fun _ => false
    uninit := (0, 0, 0)
    sscanf3 := fun _ c => c
    isempty := fun c => c = ' ' || c = '\\'
    CompareRems := cmpAscending
    AppendTag := appendTagComma
    MD5 := fun _ _ _ => List.replicate 16 0 }

/-- An entry with the given text, time and priority and nothing else. -/
def mkEntry (text : String) (time priority : Int) : CalEntry :=
  { text := text, raw_text := text, is_color := 0, r := 0, g := 0, b := 0, time := time
    priority := priority, tags := "", passthru := "", duration := 2147483647
    filename := "rem.txt", lineno := 1, trig := trig0, tt := ⟨time, 2147483647⟩
    nonconst_expr := 0, if_depth := 0 }

/-- The order `SortCol` keeps between neighbours: the first does not go after the second. -/
def inOrder (w : World) (x : Ext) (a b : CalEntry) : Prop :=
  0 ≤ cmpEntries w x a b

/-- A column built the way `GenerateCalEntries` and `DoCalRem` build one: each entry is
linked at the head and the column is sorted at once. -/
def insertAll (w : World) (x : Ext) (es : List CalEntry) : List CalEntry :=
  es.foldl (fun col e => SortCol w x e col) []

instance (w : World) (x : Ext) : DecidableRel (inOrder w x) :=
  fun a b => inferInstanceAs (Decidable (0 ≤ cmpEntries w x a b))

/-- A sorted column of three entries, at 9:00, 10:00 and 11:00. -/
def col0 : List CalEntry :=
  [mkEntry "nine" 540 5000, mkEntry "ten" 600 5000, mkEntry "eleven" 660 5000]

/-- A call that does not return `OK` leaves the column as it was and links no entry. -/
def Keeps (col : List CalEntry) (res : CalRemResult) : Prop :=
  (res.column = col ∧ res.entry = none) ∨ res.ret = .OK

/-- The locals of `DoCalRem` for the line of `x0`, once the trigger date is known. -/
def s0 : Resolved :=
  { trig := trig0, tim := ⟨600, 2147483647⟩, jul := 100, is_color := 0
    col_r := 0, col_g := 0, col_b := 0, pre_buf := "", nonconst_expr := 0 }

/-- The globals of `w0` one day earlier, with advance previews (`-sa`) switched on. -/
def wAdv : World := { w0 with JulianToday := 99, DoSimpleCalDelta := 1 }

/-- The answers of `x0`, with `ShouldTriggerReminder` answering yes. -/
def xAdv : Ext := { x0 with ShouldTriggerReminder := fun _ _ _ => 1 }

/-- Memory that holds a NUL at address 9 and `x` everywhere else. -/
def mem0 : Mem := fun a => if a = 9 then NUL else 'x'

/-- The number of leading characters on which two C strings agree when case is ignored:
the length to which they match. -/
def matchLen : List Char → List Char → Nat
  | c1 :: s1, c2 :: s2 =>
    if c1 ≠ NUL ∧ c2 ≠ NUL ∧ c1.toUpper = c2.toUpper then matchLen s1 s2 + 1 else 0
  | _, _ => 0

/-! ## Trailing space of the time strings -/

/-- A string ends with a space character. -/
def endsWithSpace (s : String) : Prop := s.toList.getLast? = some ' '

instance (s : String) : Decidable (endsWithSpace s) :=
  inferInstanceAs (Decidable (s.toList.getLast? = some ' '))

/-! ## `ShellEscape` and the characters of a C string -/

/-- The characters of the C string at `s`, without the terminating NUL. -/
def cstr : List Char → List Char
  | [] => []
  | c :: cs => if c = NUL then [] else c :: cstr cs

/-- The string `DontEscapeMe` of `utils.c`. -/
def DontEscapeMe : List Char :=
  "1234567890_-=+abcdefghijklmnopqrstuvwxyzABCDEFGHIJKLMNOPQRSTUVWXYZ@.,/".toList

/-- `ShellEscape` of `utils.c`.  `DBufPutc` is in a file that is not among the sources and is
a parameter: `putc out c` is the buffer after `DBufPutc(out, c)`, or `none` when the call
does not return `OK`.  The result is the value returned and the buffer. -/
def ShellEscape (putc : List Char → Char → Option (List Char)) :
    List Char → List Char → Code × List Char
  | [], out => (.OK, out)
  | c :: cs, out =>
    if c = NUL then (.OK, out)
    else if c ∉ DontEscapeMe then
      match putc out '\\' with
      | none => (.E_NO_MEM, out)
      | some out1 =>
        match putc out1 c with
        | none => (.E_NO_MEM, out1)
        | some out2 => ShellEscape putc cs out2
    else
      match putc out c with
      | none => (.E_NO_MEM, out)
      | some out2 => ShellEscape putc cs out2

/-- A `DBufPutc` that never runs out of memory: the character is appended. -/
def putcAlways (out : List Char) (c : Char) : Option (List Char) := some (out ++ [c])

/-- The safe set: ASCII letters, digits and the characters `_ - = + @ . , /`. -/
def isSafe (c : Char) : Bool :=
  c.isAlpha || c.isDigit || c = '_' || c = '-' || c = '=' || c = '+' || c = '@' || c = '.' ||
    c = ',' || c = '/'

/-- What escaping makes of one character: the character itself when it is safe, a backslash
and the character otherwise. -/
def escapeChar (c : Char) : List Char := if isSafe c then [c] else ['\\', c]

/-! ## Weekday columns and day numbers -/

/-- The assignment to `wd` in `WriteCalendarRow` (lines 591-594): the column of day number
`JulianToday`, Sunday-first when `MondayFirst` is 0 and Monday-first otherwise. -/
def WriteCalendarRow.wd (MondayFirst JulianToday : Int) : Int :=
  if MondayFirst = 0 then Int.tmod (JulianToday + 1) 7 else Int.tmod JulianToday 7

/-- The adjustment of `JulianToday` in `ProduceCalendar` (lines 385-386): the day number at
which the week of `JulianToday` starts. -/
def ProduceCalendar.weekStart (MondayFirst JulianToday : Int) : Int :=
  if MondayFirst ≠ 0 then JulianToday - Int.tmod JulianToday 7
  else JulianToday - Int.tmod (JulianToday + 1) 7

/-- The index into `DayName` that `WriteCalDays` prints at the head of column `i`
(lines 1748-1751). -/
def WriteCalDays.nameIndex (MondayFirst i : Int) : Int :=
  if MondayFirst = 0 then Int.tmod (i + 6) 7 else Int.tmod i 7

/-- Modelled from the spec: the days of a year, 366 in the leap years of the Gregorian
calendar and 365 otherwise. -/
def DaysInYear (y : Int) : Int := if IsLeapYear y = true then 366 else 365

/-- Modelled from the spec: `Julian` is in a file that is not among the sources (`protos.h`
has its prototype); the spec's `ToJulian`, the linear day number of a date: the number of
days from 1 January `BASE` to day `day` of the zero-based month `month` of `year`. -/
def Julian (year month day : Int) : Int :=
  ((List.range (year - BASE).toNat).map (fun (i : Nat) => DaysInYear (BASE + (i : Int)))).sum +
    ((List.range month.toNat).map (fun (i : Nat) => (DaysInMonth (i : Int) year).getD 0)).sum +
    day - 1

/-- Zeller's congruence for the Gregorian calendar: the day of the week of day `d` of month
`m` (1 to 12) of year `y`, with 0 for Saturday, 1 for Sunday, 2 for Monday and so on. -/
def zeller (y m d : Int) : Int :=
  let mm := if m < 3 then m + 12 else m
  let yy := if m < 3 then y - 1 else y
  let K := yy % 100
  let J := yy / 100
  (d + 13 * (mm + 1) / 5 + K + K / 4 + J / 4 + 5 * J) % 7

/-- The answers of `x0` for a `SATISFY` reminder whose resolution `DoSatRemind` reports as
expired. -/
def xSatExpired : Ext :=
  { x0 with
    ParseRem := (.OK, { trig0 with typ := .SAT_TYPE }, ⟨600, 2147483647⟩)
    DoSatRemind := fun t tt => (.E_EXPIRED, t, tt) }

/-- The table `VT100Colors` of `calendar.c`, indexed `[Br][R][G][B]`. -/
def VT100Colors : List (List (List (List String))) :=
  [ [ [ ["\x1B[0;30m", "\x1B[0;34m"], ["\x1B[0;32m", "\x1B[0;36m"] ],
      [ ["\x1B[0;31m", "\x1B[0;35m"], ["\x1B[0;33m", "\x1B[0;37m"] ] ],
    [ [ ["\x1B[30;1m", "\x1B[34;1m"], ["\x1B[32;1m", "\x1B[36;1m"] ],
      [ ["\x1B[31;1m", "\x1B[35;1m"], ["\x1B[33;1m", "\x1B[37;1m"] ] ] ]

/-- The element `VT100Colors[br][r][g][b]`; there is none when an index is outside the
table. -/
def VT100Colors.lookup (br r g b : Int) : Option String :=
  if 0 ≤ br ∧ 0 ≤ r ∧ 0 ≤ g ∧ 0 ≤ b then
    (((VT100Colors.get? br.toNat).bind (fun t => t.get? r.toNat)).bind
      (fun t => t.get? g.toNat)).bind (fun t => t.get? b.toNat)
  else none

/-- Values of the global `TerminalBackground`; the macros it is compared with are in a
header that is not among the sources. -/
inductive TermBg where
  | TERMINAL_BACKGROUND_DARK
  | TERMINAL_BACKGROUND_LIGHT
  | other
deriving DecidableEq, Repr

/-- `Colorize` of `calendar.c`: the sequence returned, `none` if the table were indexed
outside its bounds. -/
def Colorize (TerminalBackground : TermBg) (r g b : Int) : Option String :=
  let bright : Int := if r > 128 ∨ g > 128 ∨ b > 128 then 1 else 0
  let r : Int := if r > 64 then 1 else 0
  let g : Int := if g > 64 then 1 else 0
  let b : Int := if b > 64 then 1 else 0
  if TerminalBackground = .TERMINAL_BACKGROUND_DARK ∧ (r = 0 ∧ g = 0 ∧ b = 0) then
    VT100Colors.lookup 1 0 0 0
  else if TerminalBackground = .TERMINAL_BACKGROUND_LIGHT ∧ (r ≠ 0 ∧ g ≠ 0 ∧ b ≠ 0) then
    VT100Colors.lookup 1 0 0 0
  else VT100Colors.lookup bright r g b

/-- The sixteen sequences of `VT100Colors`. -/
def colorSequences : List String :=
  [0, 1].flatMap fun br => [0, 1].flatMap fun r => [0, 1].flatMap fun g =>
    [0, 1].filterMap fun b => VT100Colors.lookup br r g b

/-! ## `GenerateCalEntries` -/

/-- The token types that the `switch` of `GenerateCalEntries` distinguishes; `T_Other` is
any type without a `case` of its own (the `default` label). -/
inductive TokType where
  | T_Empty | T_Comment | T_ErrMsg | T_Rem | T_If | T_IfTrig | T_Else | T_EndIf | T_Include
  | T_Exit | T_Set | T_Fset | T_UnSet | T_Clr | T_Flush | T_Debug | T_Dumpvars | T_Banner
  | T_Omit | T_Pop | T_Push | T_Preserve | T_RemType | T_Other
deriving DecidableEq, Repr

/-- The line handlers of other files that `GenerateCalEntries` calls. -/
inductive Handler where
  | DoErrMsg | DoIf | DoIfTrig | DoElse | DoEndif | DoInclude | DoSet | DoFset | DoUnset
  | DoClear | DoFlush | DoOmit | PopOmitContext | PushOmitContext | DoPreserve | DoRun
deriving DecidableEq, Repr

/-- One line that `ReadLine` delivers, with what the rest of the program answers while the
line is handled: the token of `FindInitialToken`, the answer of `ShouldIgnoreLine`, the
value that each handler would return, whether `DoExit` comes back instead of ending the
program, the global `Hush`, and the globals and answers for a call of `DoCalRem`. -/
structure Line where
  tok_type : TokType
  tok_val : RemType
  ShouldIgnoreLine : Int
  handler : Handler → Code
  DoExit_returns : Bool
  Hush : Int
  w : World
  x : Ext

/-- How the sequence of `ReadLine` results ends: with `E_EOF` or with an error code. -/
inductive ReadEnd where
  | E_EOF
  | failed (r : Code)
deriving DecidableEq, Repr

/-- How a call of `GenerateCalEntries` ends: it returns at end of file, or the program
exits because the initial file cannot be included, because `ReadLine` fails, or in the
`EXIT` command. -/
inductive Ending where
  | returned
  | exit_include (r : Code)
  | exit_read (r : Code)
  | exit_command
deriving DecidableEq, Repr

/-- What a call of `GenerateCalEntries` leaves: `CalColumn[col]`, the codes whose message
line 1040 prints, the number of lines read, and the way it ended. -/
structure GenResult where
  column : List CalEntry
  reported : List Code
  linesRead : Nat
  ending : Ending

/-- The test "should we ignore it?" of `GenerateCalEntries` (lines 977-982). -/
def GenerateCalEntries.ignore (l : Line) : Bool :=
  decide (l.w.NumIfs ≠ 0) && decide (l.tok_type ≠ .T_If) && decide (l.tok_type ≠ .T_Else) &&
    decide (l.tok_type ≠ .T_EndIf) && decide (l.tok_type ≠ .T_IfTrig) &&
    decide (l.ShouldIgnoreLine ≠ 0)

/-- The `switch` of `GenerateCalEntries` (lines 991-1038): the value of `r` behind it (`r`
is `OK` before it, `ReadLine` having succeeded), `CalColumn[col]`, and whether the program
has ended in `DoExit`. -/
def GenerateCalEntries.dispatch (l : Line) (col : List CalEntry) :
    Code × List CalEntry × Bool :=
  let rem : Code × List CalEntry × Bool :=
    ((DoCalRem l.w l.x col).ret, (DoCalRem l.w l.x col).column, false)
  match l.tok_type with
  | .T_Empty => (.OK, col, false)
  | .T_Comment => (.OK, col, false)
  | .T_ErrMsg => (l.handler .DoErrMsg, col, false)
  | .T_Rem => rem
  | .T_If => (l.handler .DoIf, col, false)
  | .T_IfTrig => (l.handler .DoIfTrig, col, false)
  | .T_Else => (l.handler .DoElse, col, false)
  | .T_EndIf => (l.handler .DoEndif, col, false)
  | .T_Include => (l.handler .DoInclude, col, false)
  | .T_Exit => (.OK, col, !l.DoExit_returns)
  | .T_Set => (l.handler .DoSet, col, false)
  | .T_Fset => (l.handler .DoFset, col, false)
  | .T_UnSet => (l.handler .DoUnset, col, false)
  | .T_Clr => (l.handler .DoClear, col, false)
  | .T_Flush => (l.handler .DoFlush, col, false)
  | .T_Debug => (.OK, col, false)
  | .T_Dumpvars => (.OK, col, false)
  | .T_Banner => (.OK, col, false)
  | .T_Omit => if l.handler .DoOmit = .E_PARSE_AS_REM then rem else (l.handler .DoOmit, col, false)
  | .T_Pop => (l.handler .PopOmitContext, col, false)
  | .T_Push => (l.handler .PushOmitContext, col, false)
  | .T_Preserve => (l.handler .DoPreserve, col, false)
  | .T_RemType => if l.tok_val = .RUN_TYPE then (l.handler .DoRun, col, false) else rem
  | .T_Other => rem

/-- Line 1040 of `GenerateCalEntries`: the code whose message is printed, if any. -/
def GenerateCalEntries.report (l : Line) (r : Code) : List Code :=
  if r ≠ .OK ∧ (l.Hush = 0 ∨ r ≠ .E_RUN_DISABLED) then [r] else []

/-- The `while (1)` loop of `GenerateCalEntries` on the lines that `ReadLine` delivers
before it returns `fin`. -/
def GenerateCalEntries.loop : List Line → ReadEnd → List CalEntry → GenResult
  | [], .E_EOF, col => ⟨col, [], 0, .returned⟩
  | [], .failed r, col => ⟨col, [], 0, .exit_read r⟩
  | l :: rest, fin, col =>
    if GenerateCalEntries.ignore l = true then
      let res := GenerateCalEntries.loop rest fin col
      ⟨res.column, res.reported, res.linesRead + 1, res.ending⟩
    else
      let d := GenerateCalEntries.dispatch l col
      if d.2.2 = true then ⟨d.2.1, [], 1, .exit_command⟩
      else
        let res := GenerateCalEntries.loop rest fin d.2.1
        ⟨res.column, GenerateCalEntries.report l d.1 ++ res.reported, res.linesRead + 1,
          res.ending⟩

/-- `GenerateCalEntries` of `calendar.c`, with `CalColumn[col]` equal to `col` at the call:
`inc` is the value that `IncludeFile(InitialFile)` returns. -/
def GenerateCalEntries (inc : Code) (lines : List Line) (fin : ReadEnd) (col : List CalEntry) :
    GenResult :=
  if inc ≠ .OK then ⟨col, [], 0, .exit_include inc⟩
  else GenerateCalEntries.loop lines fin col

/-- A line ends the program: it is not ignored, it is an `EXIT` command, and `DoExit` does
not come back. -/
def Line.exits (l : Line) : Bool :=
  !GenerateCalEntries.ignore l && decide (l.tok_type = .T_Exit) && !l.DoExit_returns

/-- The `REM` line of `x0`. -/
def lineOk : Line :=
  { tok_type := .T_Rem, tok_val := .NO_TYPE, ShouldIgnoreLine := 0, handler := fun _ => .OK
    DoExit_returns := false, Hush := 0, w := w0, x := x0 }

/-- A `REM` line in whose body `DoSubst` fails with code 7. -/
def lineBad : Line :=
  { lineOk with x := { x0 with DoSubst := fun _ _ _ _ => (.other 7, "") } }

/-! ## `PrintCentered`

The output is the list of the pieces written to `stdout`, in order: one piece for each
`fputs(pad, stdout)` and one for each `PutChar`.  With a pad that fills one cell every piece
fills one cell. -/

/-- The iterations of `for (i = lo; i < hi; i++) fputs(pad, stdout);` from `i` on; `fuel` is
the number of iterations left when the loop is entered. -/
def PrintCentered.padFrom (pad : String) (hi : Int) : Nat → Int → List String
  | 0, _ => []
  | fuel + 1, i => if i < hi then pad :: PrintCentered.padFrom pad hi fuel (i + 1) else []

/-- The loop `for (i = lo; i < hi; i++) fputs(pad, stdout);`. -/
def PrintCentered.padLoop (pad : String) (lo hi : Int) : List String :=
  PrintCentered.padFrom pad hi (hi - lo).toNat lo

/-- The loop `for (i = 0; i < width; i++) { if (*s) PutChar(*s++); else break; }` from `i`
on. -/
def PrintCentered.charLoop : List Char → Int → Int → List String
  | [], _, _ => []
  | c :: cs, i, width =>
    if i < width then
      if c ≠ NUL then String.singleton c :: PrintCentered.charLoop cs (i + 1) width else []
    else []

/-- `PrintCentered` of `calendar.c` (the branch without `REM_USE_WCHAR`): the pieces written
to `stdout`. -/
def PrintCentered (s : List Char) (width : Int) (pad : String) : List String :=
  let len : Int := strlen s
  let d := Int.tdiv (width - len) 2
  PrintCentered.padLoop pad 0 d ++ PrintCentered.charLoop s 0 width ++
    PrintCentered.padLoop pad (d + len) width

/-! # Theorems -/

/-! ## Arithmetic and formatting lemmas -/

theorem tdiv_natCast (a b : Nat) : Int.tdiv (a : Int) (b : Int) = ((a / b : Nat) : Int) := by
  rw [Int.tdiv_eq_ediv (Int.ofNat_nonneg a) (Int.ofNat_nonneg b)]
  norm_cast

theorem tmod_natCast (a b : Nat) : Int.tmod (a : Int) (b : Int) = ((a % b : Nat) : Int) := by
  rw [Int.tmod_eq_emod (Int.ofNat_nonneg a) (Int.ofNat_nonneg b)]
  norm_cast

theorem fmt02d_lt (n : Nat) (h : n < 100) : fmt02d (n : Int) = twoDigits n := by
  interval_cases n <;> rfl

theorem fmtD_natCast (n : Nat) : fmtD (n : Int) = toString n := rfl

/-! ## C1: `CalendarTime` in 24-hour format -/

/-- C1: for a start minute `t < 1440` and a duration `d` (both different from `NO_TIME`,
`t + d` within a 32-bit `int`), `CalendarTime` in the format `SC_MIL` is `HH:MM-H2:M2`,
then `+N` exactly when `N > 0`, then one space, where `N = (t + d) / 1440` and `H2:M2` is
the clock reading of `(t + d) % 1440`; that end minute is below 1440 and
`N * 1440 + end = t + d`. -/
theorem CalendarTime_mil_overflow (c : TimeCfg) (t d : Nat)
    (hfmt : c.ScFormat = ScFmt.SC_MIL) (ht : t < 1440)
    (hnt : (t : Int) ≠ c.NO_TIME) (hnd : (d : Int) ≠ c.NO_TIME) (hov : t + d < 2 ^ 31) :
    (t + d) % 1440 < 1440 ∧ (t + d) / 1440 * 1440 + (t + d) % 1440 = t + d ∧
    CalendarTime c (t : Int) (d : Int) =
      clock c.TimeSep t ++ "-" ++ clock c.TimeSep ((t + d) % 1440) ++
        (if 0 < (t + d) / 1440 then "+" ++ toString ((t + d) / 1440) else "") ++ " " := by
  refine ⟨Nat.mod_lt _ (by norm_num), Nat.div_add_mod' _ _, ?_⟩
  have e1 : ((t : Int) + (d : Int)) = ((t + d : Nat) : Int) := by push_cast; rfl
  have h60 : (60 : Int) = ((60 : Nat) : Int) := rfl
  have h1440 : (1440 : Int) = ((1440 : Nat) : Int) := rfl
  have hm1 : t / 60 < 100 := by omega
  have hm2 : t % 60 < 100 := by omega
  have hm3 : (t + d) % 1440 / 60 < 100 := by omega
  have hm4 : (t + d) % 1440 % 60 < 100 := by omega
  unfold CalendarTime
  rw [if_neg hnd, if_neg hnt]
  simp only [MINUTES_PER_DAY, hfmt, e1, h60, h1440, tdiv_natCast, tmod_natCast,
    fmt02d_lt _ hm1, fmt02d_lt _ hm2, fmt02d_lt _ hm3, fmt02d_lt _ hm4, fmtD_natCast, fmtC, clock]
  by_cases hN : 0 < (t + d) / 1440
  · have hN2 : ¬ ((t : Int) + (d : Int)) / 1440 = 0 := by omega
    simp [hN, hN2, String.append_assoc]
  · have h0 : (t + d) / 1440 = 0 := by omega
    simp [h0, String.append_assoc]

/-- Witness of C1: 23:30 with a duration of 90 minutes ends at 01:00 one day later. -/
theorem CalendarTime_mil_overflow_witness :
    (1410 + 90) % 1440 = 60 ∧ (1410 + 90) / 1440 = 1 ∧
    CalendarTime milCfg 1410 90 = "23:30-01:00+1 " :=
  ⟨by decide, by decide,
    (CalendarTime_mil_overflow milCfg 1410 90 rfl (by decide) (by decide) (by decide)
      (by decide)).2.2.trans (by decide)⟩

/-! ## C2, C3: `SortCol` -/

theorem sign_flip {u v : Int} (h : Int.sign u = - Int.sign v) :
    (0 < u ↔ v < 0) ∧ (u = 0 ↔ v = 0) ∧ (u < 0 ↔ 0 < v) := by
  rcases lt_trichotomy u 0 with hu | hu | hu <;> rcases lt_trichotomy v 0 with hv | hv | hv <;>
    simp_all [Int.sign_eq_one_of_pos, Int.sign_eq_neg_one_of_neg] <;> omega

theorem chain_head_le {α : Type} {R : α → α → Prop} (htrans : ∀ a b c, R a b → R b c → R a c)
    (a : α) : ∀ l : List α, List.Chain' R (a :: l) → ∀ b ∈ l, R a b := by
  intro l
  induction l generalizing a with
  | nil => intro _ b hb; cases hb
  | cons c l ih =>
    intro h b hb
    rw [List.chain'_cons] at h
    rcases List.mem_cons.mp hb with rfl | hb
    · exact h.1
    · exact htrans _ _ _ h.1 (ih c h.2 b hb)

theorem SortCol_head (w : World) (x : Ext) (e : CalEntry) (col : List CalEntry) :
    ∀ y ∈ (SortCol w x e col).head?, y = e ∨ y ∈ col.head? := by
  cases col with
  | nil => intro y hy; left; simpa [SortCol] using hy.symm
  | cons next rest =>
    intro y hy
    unfold SortCol at hy
    split_ifs at hy
    · right; simpa using hy
    · left; simpa using hy.symm

theorem SortCol_split (w : World) (x : Ext) (e : CalEntry) (col : List CalEntry)
    (hsign : ∀ a b, Int.sign (cmpEntries w x b a) = - Int.sign (cmpEntries w x a b))
    (htrans : ∀ a b c, inOrder w x a b → inOrder w x b c → inOrder w x a c)
    (hsorted : List.Chain' (inOrder w x) col) :
    ∃ pre post, col = pre ++ post ∧ SortCol w x e col = pre ++ e :: post ∧
      (∀ b ∈ post, 0 < cmpEntries w x e b) := by
  induction col with
  | nil => exact ⟨[], [], rfl, rfl, by simp⟩
  | cons next rest ih =>
    by_cases hc : cmpEntries w x e next ≤ 0
    · obtain ⟨pre, post, h1, h2, h3⟩ := ih (List.Chain'.tail hsorted)
      refine ⟨next :: pre, post, by simp [h1], ?_, h3⟩
      rw [SortCol, if_pos hc, h2]; rfl
    · refine ⟨[], next :: rest, rfl, by rw [SortCol, if_neg hc]; rfl, ?_⟩
      have hpos : 0 < cmpEntries w x e next := by omega
      have hne : cmpEntries w x next e < 0 := ((sign_flip (hsign next e)).1).mp hpos
      have hstrict : ∀ b, inOrder w x next b → 0 < cmpEntries w x e b := by
        intro b hb
        have h0 : 0 ≤ cmpEntries w x e b := htrans e next b (le_of_lt hpos) hb
        rcases lt_or_eq_of_le h0 with h | h
        · exact h
        · exfalso
          have hbe : cmpEntries w x b e = 0 := ((sign_flip (hsign e b)).2.1).mpr h.symm
          have : inOrder w x next e := htrans next b e hb (le_of_eq hbe.symm)
          unfold inOrder at this
          omega
      intro b hb
      rcases List.mem_cons.mp hb with rfl | hb
      · exact hpos
      · exact hstrict b (chain_head_le htrans next rest hsorted b hb)

theorem SortCol_chain (w : World) (x : Ext)
    (hsign : ∀ a b, Int.sign (cmpEntries w x b a) = - Int.sign (cmpEntries w x a b))
    (e : CalEntry) (col : List CalEntry) (hsorted : List.Chain' (inOrder w x) col) :
    List.Chain' (inOrder w x) (SortCol w x e col) := by
  induction col with
  | nil => simp [SortCol]
  | cons next rest ih =>
    by_cases hc : cmpEntries w x e next ≤ 0
    · rw [SortCol, if_pos hc]
      refine List.Chain'.cons' (ih (List.Chain'.tail hsorted)) ?_
      intro y hy
      rcases SortCol_head w x e rest y hy with rfl | hy
      · have := sign_flip (hsign next y)
        unfold inOrder
        rcases lt_or_eq_of_le hc with h | h
        · exact le_of_lt (this.2.2.mp h)
        · exact le_of_eq (this.2.1.mp h).symm
      · exact (List.chain'_cons'.mp hsorted).1 y hy
    · rw [SortCol, if_neg hc]
      refine List.Chain'.cons' hsorted ?_
      intro y hy
      have : y = next := by simpa using hy.symm
      subst this
      unfold inOrder
      omega

theorem SortCol_filter (w : World) (x : Ext) (e k : CalEntry) (col : List CalEntry)
    (hsign : ∀ a b, Int.sign (cmpEntries w x b a) = - Int.sign (cmpEntries w x a b))
    (htrans : ∀ a b c, inOrder w x a b → inOrder w x b c → inOrder w x a c)
    (hsorted : List.Chain' (inOrder w x) col) :
    (SortCol w x e col).filter (fun a => decide (cmpEntries w x k a = 0)) =
      col.filter (fun a => decide (cmpEntries w x k a = 0)) ++
        [e].filter (fun a => decide (cmpEntries w x k a = 0)) := by
  obtain ⟨pre, post, h1, h2, h3⟩ := SortCol_split w x e col hsign htrans hsorted
  rw [h2, h1]
  by_cases hk : cmpEntries w x k e = 0
  · have hpost : post.filter (fun a => decide (cmpEntries w x k a = 0)) = [] := by
      rw [List.filter_eq_nil_iff]
      intro b hb hkb
      have hkb0 : cmpEntries w x k b = 0 := by simpa using hkb
      have hbk : cmpEntries w x b k = 0 := ((sign_flip (hsign k b)).2.1).mpr hkb0
      have hbe : inOrder w x b e := htrans b k e (le_of_eq hbk.symm) (le_of_eq hk.symm)
      have hlt : cmpEntries w x b e < 0 := ((sign_flip (hsign b e)).1).mp (h3 b hb)
      unfold inOrder at hbe
      omega
    simp [List.filter_cons, hk, hpost]
  · simp [List.filter_cons, hk]

theorem insertAll_filter (w : World) (x : Ext) (k : CalEntry)
    (hsign : ∀ a b, Int.sign (cmpEntries w x b a) = - Int.sign (cmpEntries w x a b))
    (htrans : ∀ a b c, inOrder w x a b → inOrder w x b c → inOrder w x a c) :
    ∀ (es acc : List CalEntry), List.Chain' (inOrder w x) acc →
      (es.foldl (fun col e => SortCol w x e col) acc).filter
          (fun a => decide (cmpEntries w x k a = 0)) =
        acc.filter (fun a => decide (cmpEntries w x k a = 0)) ++
          es.filter (fun a => decide (cmpEntries w x k a = 0)) := by
  intro es
  induction es with
  | nil => intro acc _; simp
  | cons e es ih =>
    intro acc hacc
    rw [List.foldl_cons, ih _ (SortCol_chain w x hsign e acc hacc),
      SortCol_filter w x e k acc hsign htrans hacc, List.append_assoc]
    congr 1
    rw [← List.filter_append]
    rfl

/-- C2: ties preserve file order.  With `CompareRems` a consistent total preorder on the
keys (the result for swapped arguments has the opposite sign; "does not go after" is
transitive) and the entries after the head in sorted order, `SortCol` puts the head `e`
between a front part `pre` and a back part `post` of the old column, both in their old
order, and every entry of `post` goes strictly after `e`: all old entries that compare
equal to `e` are in `pre`, before `e`.  So in a column built by linking each entry at the
head and sorting at once, the entries that compare equal to a given one stand in the order
in which they were inserted. -/
theorem SortCol_ties_keep_file_order (w : World) (x : Ext) (e : CalEntry) (col : List CalEntry)
    (hsign : ∀ a b, Int.sign (cmpEntries w x b a) = - Int.sign (cmpEntries w x a b))
    (htrans : ∀ a b c, inOrder w x a b → inOrder w x b c → inOrder w x a c)
    (hsorted : List.Chain' (inOrder w x) col) :
    (∃ pre post, col = pre ++ post ∧ SortCol w x e col = pre ++ e :: post ∧
      (∀ b ∈ post, 0 < cmpEntries w x e b) ∧
      ∀ a ∈ col, cmpEntries w x e a = 0 → a ∈ pre) ∧
    ∀ (k : CalEntry) (es : List CalEntry),
      (insertAll w x es).filter (fun a => decide (cmpEntries w x k a = 0)) =
        es.filter (fun a => decide (cmpEntries w x k a = 0)) := by
  constructor
  · obtain ⟨pre, post, h1, h2, h3⟩ := SortCol_split w x e col hsign htrans hsorted
    refine ⟨pre, post, h1, h2, h3, ?_⟩
    intro a ha h0
    rw [h1] at ha
    rcases List.mem_append.mp ha with h | h
    · exact h
    · have := h3 a h; omega
  · intro k es
    have := insertAll_filter w x k hsign htrans es [] List.chain'_nil
    simpa [insertAll] using this

theorem cmpAscending_sign (w : World) (x : Ext) (hx : x.CompareRems = cmpAscending)
    (a b : CalEntry) : Int.sign (cmpEntries w x b a) = - Int.sign (cmpEntries w x a b) := by
  simp only [cmpEntries, hx, cmpAscending]
  split_ifs <;> first | rfl | (exfalso; omega)

theorem cmpAscending_trans (w : World) (x : Ext) (hx : x.CompareRems = cmpAscending)
    (a b c : CalEntry) (hab : inOrder w x a b) (hbc : inOrder w x b c) : inOrder w x a c := by
  simp only [inOrder, cmpEntries, hx, cmpAscending] at *
  split_ifs at * <;> omega

theorem col0_sorted : List.Chain' (inOrder w0 x0) col0 :=
  List.Chain'.cons (by decide) (List.Chain'.cons (by decide) (List.chain'_singleton _))

/-- Witness of C2: a second 10:00 entry linked at the head of `col0` ends up behind the
10:00 entry that was there. -/
theorem SortCol_ties_keep_file_order_witness :
    List.Chain' (inOrder w0 x0) col0 ∧
    SortCol w0 x0 (mkEntry "new" 600 5000) col0 =
      [mkEntry "nine" 540 5000, mkEntry "ten" 600 5000, mkEntry "new" 600 5000,
        mkEntry "eleven" 660 5000] ∧
    ∃ pre post, col0 = pre ++ post ∧
      SortCol w0 x0 (mkEntry "new" 600 5000) col0 = pre ++ mkEntry "new" 600 5000 :: post ∧
      (∀ b ∈ post, 0 < cmpEntries w0 x0 (mkEntry "new" 600 5000) b) ∧
      ∀ a ∈ col0, cmpEntries w0 x0 (mkEntry "new" 600 5000) a = 0 → a ∈ pre :=
  ⟨col0_sorted, by decide,
    (SortCol_ties_keep_file_order w0 x0 (mkEntry "new" 600 5000) col0
      (cmpAscending_sign w0 x0 rfl) (cmpAscending_trans w0 x0 rfl) col0_sorted).1⟩

theorem DaysInMonth_some (m y : Int) (h0 : 0 ≤ m) (h11 : m ≤ 11) :
    ∃ dim, DaysInMonth m y = some dim ∧ 28 ≤ dim ∧ dim ≤ 31 := by
  unfold DaysInMonth
  rw [if_pos ⟨h0, h11⟩]
  interval_cases m <;> simp [MonthDays]
  split_ifs <;> simp

/-- C4: `DateOK(y, m, d)` always returns 0 or 1 (it never evaluates `DaysInMonth` for a
month outside 0..11), and returns 1 exactly when `1990 <= y <= 2078`, `0 <= m <= 11` and
`1 <= d <= DaysInMonth(m, y)`; February (`m = 1`) has 29 days in leap years and 28
otherwise. -/
theorem DateOK_iff (y m d : Int) :
    (DateOK y m d = some 1 ∨ DateOK y m d = some 0) ∧
    (DateOK y m d = some 1 ↔
      (BASE ≤ y ∧ y ≤ BASE + YR_RANGE ∧ 0 ≤ m ∧ m ≤ 11 ∧ 1 ≤ d ∧
        ∃ dim, DaysInMonth m y = some dim ∧ d ≤ dim)) ∧
    BASE = 1990 ∧ BASE + YR_RANGE = 2078 ∧
    DaysInMonth 1 y =
      some (if y % 4 = 0 ∧ (y % 100 ≠ 0 ∨ y % 400 = 0) then 29 else 28) := by
  refine ⟨?_, ?_, rfl, rfl, ?_⟩
  · unfold DateOK
    split_ifs <;> try simp
    rename_i h1 h2 h3 h4 h5
    obtain ⟨dim, hd, -, -⟩ := DaysInMonth_some m y (by omega) (by omega)
    rw [hd]
    simp only
    split_ifs <;> simp
  · unfold DateOK
    split_ifs with h1 h2 h3 h4 h5
    · simp; intros; omega
    · simp; intros; omega
    · simp; intros; omega
    · simp; intros; omega
    · simp; intros; omega
    · obtain ⟨dim, hd, -, -⟩ := DaysInMonth_some m y (by omega) (by omega)
      rw [hd]
      simp only
      split_ifs with h6
      · simp; intros; omega
      · simp
        refine ⟨by omega, by omega, by omega, by omega, by omega, by omega⟩
  · have hl : IsLeapYear y = true ↔ (y % 4 = 0 ∧ (y % 100 ≠ 0 ∨ y % 400 = 0)) := by
      simp [IsLeapYear]
    unfold DaysInMonth
    by_cases h : y % 4 = 0 ∧ (y % 100 ≠ 0 ∨ y % 400 = 0)
    · rw [if_pos h, if_pos (by decide), if_pos ⟨rfl, hl.mpr h⟩]
    · rw [if_neg h, if_pos (by decide), if_neg (fun hh => h (hl.mp hh.2))]
      rfl

/-! ## C5: a failing `DoCalRem` leaves the column alone -/

theorem link_keeps (w : World) (x : Ext) (col : List CalEntry) (s : Resolved) (nt : Int)
    (raw_buf obuf : String) (calls : List Call) :
    Keeps col (DoCalRem.link w x col s nt raw_buf obuf calls) := by
  unfold DoCalRem.link Keeps
  split_ifs <;> simp

theorem subst_keeps (w : World) (x : Ext) (col : List CalEntry) (s : Resolved) (nt : Int)
    (raw_buf obuf : String) (calls : List Call) :
    Keeps col (DoCalRem.subst w x col s nt raw_buf obuf calls) := by
  unfold DoCalRem.subst
  simp only
  split_ifs <;> first
    | exact Or.inl ⟨rfl, rfl⟩
    | (split <;> first | exact Or.inl ⟨rfl, rfl⟩ | exact link_keeps ..)

theorem addEntry_keeps (w : World) (x : Ext) (col : List CalEntry) (s : Resolved) :
    Keeps col (DoCalRem.addEntry w x col s) := by
  unfold DoCalRem.addEntry
  simp only
  split_ifs <;> first
    | exact Or.inl ⟨rfl, rfl⟩
    | (split <;> first | exact Or.inl ⟨rfl, rfl⟩ | exact subst_keeps ..)

theorem DoCalRem_keeps (w : World) (x : Ext) (col : List CalEntry) :
    Keeps col (DoCalRem w x col) := by
  unfold DoCalRem
  split
  · exact Or.inl ⟨rfl, rfl⟩
  · exact addEntry_keeps ..

/-- C5: a failing entry is dropped, not half-added.  Whenever `DoCalRem` returns a code other
than `OK`, whatever the globals, the answers of the parser, the trigger computation, `DoSubst`
and the allocator, `CalColumn[col]` is what it was before the call and no entry was linked. -/
theorem DoCalRem_error_keeps_column (w : World) (x : Ext) (col : List CalEntry)
    (h : (DoCalRem w x col).ret ≠ Code.OK) :
    (DoCalRem w x col).column = col ∧ (DoCalRem w x col).entry = none := by
  rcases DoCalRem_keeps w x col with hk | hk
  · exact hk
  · exact absurd hk h

/-- Witness of C5: when `DoSubst` fails with code 7 on the line of `x0`, `DoCalRem` returns
that code and `col0` is unchanged. -/
theorem DoCalRem_error_keeps_column_witness :
    (DoCalRem w0 { x0 with DoSubst := fun _ _ _ _ => (Code.other 7, "") } col0).ret = Code.other 7 ∧
    (DoCalRem w0 { x0 with DoSubst := fun _ _ _ _ => (Code.other 7, "") } col0).column = col0 ∧
    (DoCalRem w0 { x0 with DoSubst := fun _ _ _ _ => (Code.other 7, "") } col0).entry = none :=
  ⟨by decide,
    DoCalRem_error_keeps_column w0 { x0 with DoSubst := fun _ _ _ _ => (Code.other 7, "") } col0
      (by decide)⟩

/-! ## The entry that `DoCalRem` links -/

theorem SimpleTime_NO_TIME (c : TimeCfg) : SimpleTime c c.NO_TIME = "" := by
  unfold SimpleTime
  cases c.ScFormat <;> simp

theorem link_entry (w : World) (x : Ext) (col : List CalEntry) (s : Resolved) (nt : Int)
    (raw_buf obuf : String) (calls : List Call) (e : CalEntry)
    (he : (DoCalRem.link w x col s nt raw_buf obuf calls).entry = some e) :
    DoCalRem.link w x col s nt raw_buf obuf calls =
      ⟨.OK, SortCol w x e col, nt, calls, some e, obuf⟩ ∧
    e = DoCalRem.newEntry w x s raw_buf obuf := by
  unfold DoCalRem.link at he ⊢
  split_ifs at he ⊢
  simp_all

theorem subst_entry (w : World) (x : Ext) (col : List CalEntry) (s : Resolved) (nt : Int)
    (raw_buf obuf : String) (calls : List Call) (e : CalEntry)
    (he : (DoCalRem.subst w x col s nt raw_buf obuf calls).entry = some e) :
    ∃ suf, (DoCalRem.hook x "calsuffix" .calsuffix_put s.trig).1 = some suf ∧
      (x.DoSubst s.trig s.tim s.jul (DoCalRem.substMode w s.jul)).1 = .OK ∧
      DoCalRem.subst w x col s nt raw_buf obuf calls =
        ⟨.OK, SortCol w x e col, nt,
          calls ++ [.DoSubst s.jul (DoCalRem.substMode w s.jul)] ++
            (DoCalRem.hook x "calsuffix" .calsuffix_put s.trig).2,
          some e,
          obuf ++ (x.DoSubst s.trig s.tim s.jul (DoCalRem.substMode w s.jul)).2 ++ suf⟩ ∧
      e = DoCalRem.newEntry w x s raw_buf
        (obuf ++ (x.DoSubst s.trig s.tim s.jul (DoCalRem.substMode w s.jul)).2 ++ suf) := by
  unfold DoCalRem.subst at he ⊢
  simp only at he ⊢
  split_ifs at he ⊢ with h1 h2
  cases hh : (DoCalRem.hook x "calsuffix" .calsuffix_put s.trig).1 with
  | none => rw [hh] at he; simp at he
  | some suf =>
    rw [hh] at he
    simp only at he ⊢
    obtain ⟨h3, h4⟩ := link_entry _ _ _ _ _ _ _ _ _ he
    exact ⟨suf, rfl, by simpa using h1, h3, h4⟩

theorem addEntry_entry (w : World) (x : Ext) (col : List CalEntry) (s : Resolved) (e : CalEntry)
    (he : (DoCalRem.addEntry w x col s).entry = some e) :
    ∃ pre suf, (DoCalRem.hook x "calprefix" .calprefix_put s.trig).1 = some pre ∧
      (DoCalRem.hook x "calsuffix" .calsuffix_put s.trig).1 = some suf ∧
      (x.DoSubst s.trig s.tim s.jul (DoCalRem.substMode w s.jul)).1 = .OK ∧
      DoCalRem.addEntry w x col s =
        ⟨.OK, SortCol w x e col, w.NumTriggered + 1,
          (DoCalRem.hook x "calprefix" .calprefix_put s.trig).2 ++
            [.DoSubst s.jul (DoCalRem.substMode w s.jul)] ++
            (DoCalRem.hook x "calsuffix" .calsuffix_put s.trig).2,
          some e,
          DoCalRem.timePrefix w s.trig s.tim s.jul ++ pre ++
            (x.DoSubst s.trig s.tim s.jul (DoCalRem.substMode w s.jul)).2 ++ suf⟩ ∧
      e = DoCalRem.newEntry w x s (DoCalRem.rawText x)
        (DoCalRem.timePrefix w s.trig s.tim s.jul ++ pre ++
          (x.DoSubst s.trig s.tim s.jul (DoCalRem.substMode w s.jul)).2 ++ suf) := by
  unfold DoCalRem.addEntry at he ⊢
  simp only at he ⊢
  split_ifs at he ⊢
  cases hh : (DoCalRem.hook x "calprefix" .calprefix_put s.trig).1 with
  | none => rw [hh] at he; simp at he
  | some pre =>
    rw [hh] at he
    simp only at he ⊢
    obtain ⟨suf, h2, h3, h4, h5⟩ := subst_entry _ _ _ _ _ _ _ _ _ he
    exact ⟨pre, suf, rfl, h2, h3, h4, h5⟩

theorem DoCalRem_entry (w : World) (x : Ext) (col : List CalEntry) (s : Resolved) (e : CalEntry)
    (hs : DoCalRem.resolve w x = Step.go s) (he : (DoCalRem w x col).entry = some e) :
    ∃ pre suf, (DoCalRem.hook x "calprefix" .calprefix_put s.trig).1 = some pre ∧
      (DoCalRem.hook x "calsuffix" .calsuffix_put s.trig).1 = some suf ∧
      (x.DoSubst s.trig s.tim s.jul (DoCalRem.substMode w s.jul)).1 = .OK ∧
      DoCalRem w x col =
        ⟨.OK, SortCol w x e col, w.NumTriggered + 1,
          (DoCalRem.hook x "calprefix" .calprefix_put s.trig).2 ++
            [.DoSubst s.jul (DoCalRem.substMode w s.jul)] ++
            (DoCalRem.hook x "calsuffix" .calsuffix_put s.trig).2,
          some e,
          DoCalRem.timePrefix w s.trig s.tim s.jul ++ pre ++
            (x.DoSubst s.trig s.tim s.jul (DoCalRem.substMode w s.jul)).2 ++ suf⟩ ∧
      e = DoCalRem.newEntry w x s (DoCalRem.rawText x)
        (DoCalRem.timePrefix w s.trig s.tim s.jul ++ pre ++
          (x.DoSubst s.trig s.tim s.jul (DoCalRem.substMode w s.jul)).2 ++ suf) := by
  unfold DoCalRem at he ⊢
  rw [hs] at he ⊢
  exact addEntry_entry w x col s e he

theorem hook_calls (x : Ext) (name : String) (site : AllocSite) (trig : Trigger) :
    ∀ c ∈ (DoCalRem.hook x name site trig).2, ∀ j m, c ≠ Call.DoSubst j m := by
  unfold DoCalRem.hook
  simp only []
  split_ifs <;> simp

/-! ## C6: advance previews -/

/-- C6: advance previews suppress the time.  For an entry that `DoCalRem` links, with `pre`
and `suf` the texts of the `calprefix` and `calsuffix` hooks: when the day is not the trigger
date (`jul != JulianToday`), the body is substituted in `ADVANCE_MODE` and never in
`CAL_MODE`, the text in front of it is `SimpleTime(NO_TIME)`, the empty string, and the
stored time is `NO_TIME`; when `jul == JulianToday`, the body is substituted in `CAL_MODE`
and never in `ADVANCE_MODE`, the stored time is `tim.ttime`, and for a timed reminder that is
not a non-COLOR passthru the text in front is `CalendarTime(tim.ttime, tim.duration)`. -/
theorem DoCalRem_advance_suppresses_time (w : World) (x : Ext) (col : List CalEntry)
    (s : Resolved) (e : CalEntry)
    (hs : DoCalRem.resolve w x = Step.go s) (he : (DoCalRem w x col).entry = some e) :
    ∃ pre suf, (DoCalRem.hook x "calprefix" .calprefix_put s.trig).1 = some pre ∧
      (DoCalRem.hook x "calsuffix" .calsuffix_put s.trig).1 = some suf ∧
      e.text = s.pre_buf ++ DoCalRem.skipEmpty w x (DoCalRem w x col).obuf ∧
      (s.jul ≠ w.JulianToday →
        (DoCalRem w x col).obuf =
          SimpleTime w.toTimeCfg w.NO_TIME ++ pre ++
            (x.DoSubst s.trig s.tim s.jul .ADVANCE_MODE).2 ++ suf ∧
        SimpleTime w.toTimeCfg w.NO_TIME = "" ∧
        Call.DoSubst s.jul .ADVANCE_MODE ∈ (DoCalRem w x col).calls ∧
        (∀ j, Call.DoSubst j .CAL_MODE ∉ (DoCalRem w x col).calls) ∧
        e.time = w.NO_TIME) ∧
      (s.jul = w.JulianToday →
        Call.DoSubst s.jul .CAL_MODE ∈ (DoCalRem w x col).calls ∧
        (∀ j, Call.DoSubst j .ADVANCE_MODE ∉ (DoCalRem w x col).calls) ∧
        e.time = s.tim.ttime ∧
        (s.tim.ttime ≠ w.NO_TIME → nonColorSpecial s.trig = false →
          (DoCalRem w x col).obuf =
            CalendarTime w.toTimeCfg s.tim.ttime s.tim.duration ++ pre ++
              (x.DoSubst s.trig s.tim s.jul .CAL_MODE).2 ++ suf)) := by
  obtain ⟨pre, suf, hp, hsuf, -, hres, hent⟩ := DoCalRem_entry w x col s e hs he
  refine ⟨pre, suf, hp, hsuf, ?_, ?_, ?_⟩
  · rw [hres, hent]; rfl
  · intro hj
    have hmode : DoCalRem.substMode w s.jul = .ADVANCE_MODE := by
      unfold DoCalRem.substMode; rw [if_pos hj]
    have hpre : DoCalRem.timePrefix w s.trig s.tim s.jul = SimpleTime w.toTimeCfg w.NO_TIME := by
      unfold DoCalRem.timePrefix
      split_ifs <;> simp_all [SimpleTime_NO_TIME]
    rw [hres, hent, hmode, hpre]
    refine ⟨rfl, SimpleTime_NO_TIME _, by simp, ?_, ?_⟩
    · intro j hmem
      simp only [List.mem_append, List.mem_singleton] at hmem
      rcases hmem with (h | h) | h
      · exact hook_calls _ _ _ _ _ h _ _ rfl
      · cases h
      · exact hook_calls _ _ _ _ _ h _ _ rfl
    · simp [DoCalRem.newEntry, hj]
  · intro hj
    have hmode : DoCalRem.substMode w s.jul = .CAL_MODE := by
      unfold DoCalRem.substMode; rw [if_neg (not_not.mpr hj)]
    rw [hres, hent, hmode]
    refine ⟨by simp, ?_, by simp [DoCalRem.newEntry, hj], ?_⟩
    · intro j hmem
      simp only [List.mem_append, List.mem_singleton] at hmem
      rcases hmem with (h | h) | h
      · exact hook_calls _ _ _ _ _ h _ _ rfl
      · cases h
      · exact hook_calls _ _ _ _ _ h _ _ rfl
    · intro ht hn
      have hpre : DoCalRem.timePrefix w s.trig s.tim s.jul =
          CalendarTime w.toTimeCfg s.tim.ttime s.tim.duration := by
        unfold DoCalRem.timePrefix
        rw [if_pos (Or.inr ht), if_neg]
        simp [hj, hn]
      simp only [hpre]

/-- Witness of C6: the 10:00 reminder of day 100, previewed on day 99, is entered as
`Meeting` without a time; on day 100 itself it is entered as `10:00 Meeting`. -/
theorem DoCalRem_advance_suppresses_time_witness :
    DoCalRem.resolve wAdv xAdv = Step.go s0 ∧ s0.jul ≠ wAdv.JulianToday ∧
    (DoCalRem wAdv xAdv col0).entry = some (DoCalRem.newEntry wAdv xAdv s0 "Meeting" "Meeting") ∧
    (DoCalRem.newEntry wAdv xAdv s0 "Meeting" "Meeting").text = "Meeting" ∧
    (DoCalRem w0 x0 col0).entry = some (DoCalRem.newEntry w0 x0 s0 "Meeting" "10:00 Meeting") ∧
    ∃ pre suf, (DoCalRem.hook xAdv "calprefix" .calprefix_put s0.trig).1 = some pre ∧
      (DoCalRem.hook xAdv "calsuffix" .calsuffix_put s0.trig).1 = some suf ∧
      (DoCalRem.newEntry wAdv xAdv s0 "Meeting" "Meeting").text =
        s0.pre_buf ++ DoCalRem.skipEmpty wAdv xAdv (DoCalRem wAdv xAdv col0).obuf ∧
      (s0.jul ≠ wAdv.JulianToday →
        (DoCalRem wAdv xAdv col0).obuf =
          SimpleTime wAdv.toTimeCfg wAdv.NO_TIME ++ pre ++
            (xAdv.DoSubst s0.trig s0.tim s0.jul .ADVANCE_MODE).2 ++ suf ∧
        SimpleTime wAdv.toTimeCfg wAdv.NO_TIME = "" ∧
        Call.DoSubst s0.jul .ADVANCE_MODE ∈ (DoCalRem wAdv xAdv col0).calls ∧
        (∀ j, Call.DoSubst j .CAL_MODE ∉ (DoCalRem wAdv xAdv col0).calls) ∧
        (DoCalRem.newEntry wAdv xAdv s0 "Meeting" "Meeting").time = wAdv.NO_TIME) ∧
      (s0.jul = wAdv.JulianToday →
        Call.DoSubst s0.jul .CAL_MODE ∈ (DoCalRem wAdv xAdv col0).calls ∧
        (∀ j, Call.DoSubst j .ADVANCE_MODE ∉ (DoCalRem wAdv xAdv col0).calls) ∧
        (DoCalRem.newEntry wAdv xAdv s0 "Meeting" "Meeting").time = s0.tim.ttime ∧
        (s0.tim.ttime ≠ wAdv.NO_TIME → nonColorSpecial s0.trig = false →
          (DoCalRem wAdv xAdv col0).obuf =
            CalendarTime wAdv.toTimeCfg s0.tim.ttime s0.tim.duration ++ pre ++
              (xAdv.DoSubst s0.trig s0.tim s0.jul .CAL_MODE).2 ++ suf)) :=
  ⟨rfl, by decide, rfl, by decide, rfl,
    DoCalRem_advance_suppresses_time wAdv xAdv col0 s0 _ rfl rfl⟩

/-! ## C7: absent hooks -/

theorem hook_absent (x : Ext) (name : String) (site : AllocSite) (trig : Trigger)
    (h : x.UserFuncExists name ≠ 1) :
    DoCalRem.hook x name site trig =
      (some "", if trig.typ ≠ .PASSTHRU_TYPE then [Call.UserFuncExists name] else []) := by
  unfold DoCalRem.hook
  simp only []
  split_ifs <;> rfl

theorem SortCol_ext (w : World) (x y : Ext) (h : y.CompareRems = x.CompareRems) (e : CalEntry) :
    ∀ col, SortCol w y e col = SortCol w x e col := by
  intro col
  induction col with
  | nil => rfl
  | cons next rest ih => simp only [SortCol, cmpEntries, h, ih]

theorem link_calls (w : World) (x : Ext) (col : List CalEntry) (s : Resolved) (nt : Int)
    (raw_buf obuf : String) (calls : List Call) :
    (DoCalRem.link w x col s nt raw_buf obuf calls).calls = calls := by
  unfold DoCalRem.link
  split_ifs <;> rfl

theorem subst_calls (w : World) (x : Ext) (col : List CalEntry) (s : Resolved) (nt : Int)
    (raw_buf obuf : String) (calls : List Call) :
    ∀ c ∈ (DoCalRem.subst w x col s nt raw_buf obuf calls).calls,
      c ∈ calls ∨ (∃ j m, c = Call.DoSubst j m) ∨
        c ∈ (DoCalRem.hook x "calsuffix" .calsuffix_put s.trig).2 := by
  intro c hc
  unfold DoCalRem.subst at hc
  simp only at hc
  split_ifs at hc
  · simp only [List.mem_append, List.mem_singleton] at hc
    rcases hc with h | h
    · exact Or.inl h
    · exact Or.inr (Or.inl ⟨_, _, h⟩)
  · simp only [List.mem_append, List.mem_singleton] at hc
    rcases hc with h | h
    · exact Or.inl h
    · exact Or.inr (Or.inl ⟨_, _, h⟩)
  · split at hc
    · simp only [List.mem_append, List.mem_singleton] at hc
      rcases hc with (h | h) | h
      · exact Or.inl h
      · exact Or.inr (Or.inl ⟨_, _, h⟩)
      · exact Or.inr (Or.inr h)
    · rw [link_calls] at hc
      simp only [List.mem_append, List.mem_singleton] at hc
      rcases hc with (h | h) | h
      · exact Or.inl h
      · exact Or.inr (Or.inl ⟨_, _, h⟩)
      · exact Or.inr (Or.inr h)

theorem addEntry_calls (w : World) (x : Ext) (col : List CalEntry) (s : Resolved) :
    ∀ c ∈ (DoCalRem.addEntry w x col s).calls,
      c ∈ (DoCalRem.hook x "calprefix" .calprefix_put s.trig).2 ∨
        (∃ j m, c = Call.DoSubst j m) ∨
        c ∈ (DoCalRem.hook x "calsuffix" .calsuffix_put s.trig).2 := by
  intro c hc
  unfold DoCalRem.addEntry at hc
  simp only at hc
  split_ifs at hc
  · simp at hc
  · simp at hc
  · split at hc
    · exact Or.inl hc
    · exact subst_calls _ _ _ _ _ _ _ _ c hc
  · simp at hc

theorem link_ext (w : World) (x : Ext) (ev : String → Code × Value) (dc : Value → Code × Value)
    (col : List CalEntry) (s : Resolved) (nt : Int) (raw_buf obuf : String) (calls : List Call) :
    DoCalRem.link w { x with EvalExpr := ev, DoCoerce := dc } col s nt raw_buf obuf calls =
      DoCalRem.link w x col s nt raw_buf obuf calls := by
  unfold DoCalRem.link
  simp only [SortCol_ext w x { x with EvalExpr := ev, DoCoerce := dc } rfl]
  rfl

theorem subst_ext (w : World) (x : Ext) (ev : String → Code × Value) (dc : Value → Code × Value)
    (hsuf : x.UserFuncExists "calsuffix" ≠ 1)
    (col : List CalEntry) (s : Resolved) (nt : Int) (raw_buf obuf : String) (calls : List Call) :
    DoCalRem.subst w { x with EvalExpr := ev, DoCoerce := dc } col s nt raw_buf obuf calls =
      DoCalRem.subst w x col s nt raw_buf obuf calls := by
  unfold DoCalRem.subst
  rw [hook_absent x _ _ _ hsuf, hook_absent { x with EvalExpr := ev, DoCoerce := dc } _ _ _ hsuf]
  simp only [link_ext]

theorem addEntry_ext (w : World) (x : Ext) (ev : String → Code × Value)
    (dc : Value → Code × Value)
    (hp : x.UserFuncExists "calprefix" ≠ 1) (hsuf : x.UserFuncExists "calsuffix" ≠ 1)
    (col : List CalEntry) (s : Resolved) :
    DoCalRem.addEntry w { x with EvalExpr := ev, DoCoerce := dc } col s =
      DoCalRem.addEntry w x col s := by
  unfold DoCalRem.addEntry
  rw [hook_absent x _ _ _ hp, hook_absent { x with EvalExpr := ev, DoCoerce := dc } _ _ _ hp]
  simp only [subst_ext w x ev dc hsuf]
  rfl

theorem resolve_ext (w : World) (x : Ext) (ev : String → Code × Value)
    (dc : Value → Code × Value) :
    DoCalRem.resolve w { x with EvalExpr := ev, DoCoerce := dc } = DoCalRem.resolve w x := rfl

/-- C7: absent hooks are skipped silently.  When `UserFuncExists` does not answer 1 for a
hook, the hook block appends the empty text, reports no allocation failure and calls nothing
but `UserFuncExists`; the text `obuf` of an entry that `DoCalRem` links is then without the
text of that hook.  When both hooks are absent, `DoCalRem` never calls `EvalExpr` or
`DoCoerce`, its result does not depend on what they would answer, and the text of an entry
it links is the time text followed by the substituted body. -/
theorem DoCalRem_absent_hooks_skipped (w : World) (x : Ext) (col : List CalEntry) :
    (∀ name site trig, x.UserFuncExists name ≠ 1 →
      (DoCalRem.hook x name site trig).1 = some "" ∧
      ∀ c ∈ (DoCalRem.hook x name site trig).2, c = Call.UserFuncExists name) ∧
    (x.UserFuncExists "calprefix" ≠ 1 →
      ∀ s e, DoCalRem.resolve w x = Step.go s → (DoCalRem w x col).entry = some e →
        ∃ suf, (DoCalRem.hook x "calsuffix" .calsuffix_put s.trig).1 = some suf ∧
          (DoCalRem w x col).obuf =
            DoCalRem.timePrefix w s.trig s.tim s.jul ++
              (x.DoSubst s.trig s.tim s.jul (DoCalRem.substMode w s.jul)).2 ++ suf) ∧
    (x.UserFuncExists "calsuffix" ≠ 1 →
      ∀ s e, DoCalRem.resolve w x = Step.go s → (DoCalRem w x col).entry = some e →
        ∃ pre, (DoCalRem.hook x "calprefix" .calprefix_put s.trig).1 = some pre ∧
          (DoCalRem w x col).obuf =
            DoCalRem.timePrefix w s.trig s.tim s.jul ++ pre ++
              (x.DoSubst s.trig s.tim s.jul (DoCalRem.substMode w s.jul)).2) ∧
    (x.UserFuncExists "calprefix" ≠ 1 → x.UserFuncExists "calsuffix" ≠ 1 →
      (∀ c ∈ (DoCalRem w x col).calls, (∀ expr, c ≠ Call.EvalExpr expr) ∧ c ≠ Call.DoCoerce) ∧
      (∀ ev dc, DoCalRem w { x with EvalExpr := ev, DoCoerce := dc } col = DoCalRem w x col) ∧
      (∀ s e, DoCalRem.resolve w x = Step.go s → (DoCalRem w x col).entry = some e →
        (DoCalRem w x col).ret = Code.OK ∧
        (DoCalRem w x col).obuf =
          DoCalRem.timePrefix w s.trig s.tim s.jul ++
            (x.DoSubst s.trig s.tim s.jul (DoCalRem.substMode w s.jul)).2 ∧
        e.text = s.pre_buf ++ DoCalRem.skipEmpty w x
          (DoCalRem.timePrefix w s.trig s.tim s.jul ++
            (x.DoSubst s.trig s.tim s.jul (DoCalRem.substMode w s.jul)).2))) := by
  refine ⟨?_, ?_, ?_, ?_⟩
  · intro name site trig h
    rw [hook_absent x name site trig h]
    refine ⟨rfl, ?_⟩
    intro c hc
    split_ifs at hc <;> simp_all
  · intro hp s e hs he
    obtain ⟨pre, suf, h1, h2, -, hres, -⟩ := DoCalRem_entry w x col s e hs he
    rw [hook_absent x _ _ _ hp] at h1
    cases h1
    exact ⟨suf, h2, by rw [hres]; simp⟩
  · intro hsuf s e hs he
    obtain ⟨pre, suf, h1, h2, -, hres, -⟩ := DoCalRem_entry w x col s e hs he
    rw [hook_absent x _ _ _ hsuf] at h2
    cases h2
    exact ⟨pre, h1, by rw [hres]; simp⟩
  · intro hp hsuf
    refine ⟨?_, ?_, ?_⟩
    · intro c hc
      have hcases : c ∈ (DoCalRem.hook x "calprefix" .calprefix_put
            (match DoCalRem.resolve w x with | .go s => s.trig | .ret _ => trig0)).2 ∨
          (∃ j m, c = Call.DoSubst j m) ∨
          c ∈ (DoCalRem.hook x "calsuffix" .calsuffix_put
            (match DoCalRem.resolve w x with | .go s => s.trig | .ret _ => trig0)).2 := by
        unfold DoCalRem at hc
        cases hr : DoCalRem.resolve w x with
        | ret r => rw [hr] at hc; simp at hc
        | go s => rw [hr] at hc; exact addEntry_calls w x col s c hc
      rw [hook_absent x _ _ _ hp, hook_absent x _ _ _ hsuf] at hcases
      rcases hcases with h | ⟨j, m, h⟩ | h
      · split_ifs at h <;> simp_all
      · subst h; exact ⟨fun _ => by simp, by simp⟩
      · split_ifs at h <;> simp_all
    · intro ev dc
      unfold DoCalRem
      rw [resolve_ext]
      cases DoCalRem.resolve w x with
      | ret r => rfl
      | go s => exact addEntry_ext w x ev dc hp hsuf col s
    · intro s e hs he
      obtain ⟨pre, suf, h1, h2, -, hres, hent⟩ := DoCalRem_entry w x col s e hs he
      rw [hook_absent x _ _ _ hp] at h1
      rw [hook_absent x _ _ _ hsuf] at h2
      cases h1; cases h2
      rw [hres, hent]
      simp [DoCalRem.newEntry]

/-- Witness of C7: for the line of `x0` no hook is defined; the entry is `10:00 Meeting`. -/
theorem DoCalRem_absent_hooks_skipped_witness :
    x0.UserFuncExists "calprefix" ≠ 1 ∧ x0.UserFuncExists "calsuffix" ≠ 1 ∧
    (DoCalRem w0 x0 col0).calls =
      [Call.UserFuncExists "calprefix", Call.DoSubst 100 SubstMode.CAL_MODE,
        Call.UserFuncExists "calsuffix"] ∧
    (DoCalRem w0 x0 col0).obuf = "10:00 Meeting" ∧
    ∀ c ∈ (DoCalRem w0 x0 col0).calls, (∀ expr, c ≠ Call.EvalExpr expr) ∧ c ≠ Call.DoCoerce :=
  ⟨by decide, by decide, by decide, by decide,
    ((DoCalRem_absent_hooks_skipped w0 x0 col0).2.2.2 (by decide) (by decide)).1⟩

/-! ## C8: synthesized tags -/

/-- C8, as the code has it: a content-hash tag is synthesized for a calendar entry exactly
when the option `SynthesizeTags` is set, whether or not the trigger carries a tag.  For
every entry that `DoCalRem` links, the tags are the tags of the trigger when
`SynthesizeTags` is 0, and `AppendTag` of the tags of the trigger and `SynthesizeTag()`, a
tag that starts with `__syn__`, otherwise. -/
theorem DoCalRem_tags (w : World) (x : Ext) (col : List CalEntry) (s : Resolved) (e : CalEntry)
    (hs : DoCalRem.resolve w x = Step.go s) (he : (DoCalRem w x col).entry = some e) :
    (w.SynthesizeTags = 0 → e.tags = s.trig.tags) ∧
    (w.SynthesizeTags ≠ 0 → e.tags = x.AppendTag s.trig.tags (SynthesizeTag w x)) ∧
    (∃ hex, SynthesizeTag w x = "__syn__" ++ hex) ∧
    e.trig = s.trig := by
  obtain ⟨pre, suf, -, -, -, -, hent⟩ := DoCalRem_entry w x col s e hs he
  subst hent
  refine ⟨?_, ?_, ⟨_, rfl⟩, rfl⟩
  · intro h; simp [DoCalRem.newEntry, h]
  · intro h; simp [DoCalRem.newEntry, h]

/-- Witness of C8 as amended: the line of `x0` with tag synthesis switched on. -/
theorem DoCalRem_tags_witness :
    DoCalRem.resolve w0 x0 = Step.go s0 ∧
    (DoCalRem w0 x0 col0).entry = some (DoCalRem.newEntry w0 x0 s0 "Meeting" "10:00 Meeting") ∧
    w0.SynthesizeTags ≠ 0 ∧
    (DoCalRem.newEntry w0 x0 s0 "Meeting" "10:00 Meeting").tags =
      x0.AppendTag s0.trig.tags (SynthesizeTag w0 x0) :=
  ⟨rfl, rfl, by decide,
    (DoCalRem_tags w0 x0 col0 s0 _ rfl rfl).2.1 (by decide)⟩

/-- Counterexample to C8 as stated: the trigger of `x0` carries the tag `work`, and the
entry that `DoCalRem` links for it has the tags `work` and a synthesized `__syn__` tag;
whatever `AppendTag` does, the tags of the entry are what it makes of `work` and that tag. -/
theorem DoCalRem_tags_counterexample :
    DoCalRem.resolve w0 x0 = Step.go s0 ∧ s0.trig.tags = "work" ∧ s0.trig.tags ≠ "" ∧
    (∃ e, (DoCalRem w0 x0 col0).entry = some e ∧ e.trig.tags = "work" ∧
      e.tags = "work,__syn__00000000000000000000000000000000" ∧ e.tags ≠ e.trig.tags) ∧
    SynthesizeTag w0 x0 = "__syn__00000000000000000000000000000000" ∧
    ∀ f : String → String → String,
      ((DoCalRem w0 { x0 with AppendTag := f } col0).entry.map fun e => e.tags) =
        some (f "work" (SynthesizeTag w0 x0)) :=
  ⟨rfl, rfl, by decide, ⟨_, rfl, rfl, by decide, by decide⟩, by decide, fun _ => rfl⟩

/-! ## C9: `StrnCpy` -/

theorem StrnCpy_cons (mem : Mem) (dest : Int) (c : Char) (cs : List Char) (n : Int)
    (hc : c ≠ NUL) (hn : n ≠ 0) :
    (StrnCpy mem dest (c :: cs) n).2 =
      (StrnCpy (Function.update mem dest c) (dest + 1) cs (n - 1)).2 := by
  simp only [StrnCpy, StrnCpy.loop, if_neg hn, if_neg hc]
  split_ifs <;> rfl

theorem StrnCpy_stop (mem : Mem) (dest : Int) (source : List Char) (n : Int)
    (hs : strlen source = 0) (hn : n ≠ 0) :
    (StrnCpy mem dest source n).2 = Function.update mem dest NUL := by
  cases source with
  | nil => simp [StrnCpy, StrnCpy.loop, hn]
  | cons c cs =>
    have hc : c = NUL := by
      by_contra h
      simp [strlen, h] at hs
    simp [StrnCpy, StrnCpy.loop, hn, hc]

/-- `StrnCpy` with `n >= 1`: the destination holds the first `min(n, strlen(source))`
characters of `source` and a NUL behind them, and no byte outside `dest[0..n]` changes. -/
theorem StrnCpy_pos (source : List Char) :
    ∀ (n : Nat) (dest : Int) (mem : Mem), 1 ≤ n →
      (StrnCpy mem dest source n).1 = dest ∧
      (∀ i : Nat, i < min n (strlen source) →
        (StrnCpy mem dest source n).2 (dest + i) = source.getD i NUL ∧
          source.getD i NUL ≠ NUL) ∧
      (StrnCpy mem dest source n).2 (dest + (min n (strlen source) : Nat)) = NUL ∧
      ∀ a : Int, a < dest ∨ dest + n < a → (StrnCpy mem dest source n).2 a = mem a := by
  induction source with
  | nil =>
    intro n dest mem hn
    have hn0 : (n : Int) ≠ 0 := by omega
    refine ⟨by simp only [StrnCpy]; split_ifs <;> rfl, ?_, ?_, ?_⟩
    · intro i hi
      have hm : min n (strlen ([] : List Char)) = 0 := by simp [strlen]
      omega
    · have hm : min n (strlen ([] : List Char)) = 0 := by simp [strlen]
      have e : dest + ((0 : Nat) : Int) = dest := by simp
      rw [StrnCpy_stop mem dest [] n rfl hn0, hm, e, Function.update_same]
    · intro a ha
      rw [StrnCpy_stop mem dest [] n rfl hn0, Function.update_noteq]
      omega
  | cons c cs ih =>
    intro n dest mem hn
    have hn0 : (n : Int) ≠ 0 := by omega
    have hret : (StrnCpy mem dest (c :: cs) n).1 = dest := by
      simp only [StrnCpy]; split_ifs <;> rfl
    by_cases hc : c = NUL
    · have hs : strlen (c :: cs) = 0 := by simp [strlen, hc]
      refine ⟨hret, ?_, ?_, ?_⟩
      · intro i hi; rw [hs] at hi; omega
      · have hm : min n 0 = 0 := by omega
        have e : dest + ((0 : Nat) : Int) = dest := by simp
        rw [StrnCpy_stop mem dest _ n hs hn0, hs, hm, e, Function.update_same]
      · intro a ha
        rw [StrnCpy_stop mem dest _ n hs hn0, Function.update_noteq]
        omega
    · have hs : strlen (c :: cs) = strlen cs + 1 := by simp [strlen, hc]
      rw [StrnCpy_cons mem dest c cs n hc hn0, hs]
      by_cases h1 : n = 1
      · subst h1
        have hm : min 1 (strlen cs + 1) = 1 := by omega
        have e0 : (StrnCpy (Function.update mem dest c) (dest + 1) cs ((1 : Nat) - 1 : Int)).2 =
            Function.update (Function.update mem dest c) (dest + 1) NUL := by
          cases cs <;> simp [StrnCpy, StrnCpy.loop, hc]
        rw [e0, hm]
        refine ⟨hret, ?_, ?_, ?_⟩
        · intro i hi
          have : i = 0 := by omega
          subst this
          have e : dest + ((0 : Nat) : Int) = dest := by simp
          rw [e, Function.update_noteq (by omega), Function.update_same]
          exact ⟨rfl, hc⟩
        · simp
        · intro a ha
          rw [Function.update_noteq (by push_cast at ha; omega),
            Function.update_noteq (by push_cast at ha; omega)]
      · have hn1 : 1 ≤ n - 1 := by omega
        have hcast : ((n : Int) - 1) = ((n - 1 : Nat) : Int) := by omega
        rw [hcast]
        obtain ⟨-, i1, i2, i3⟩ := ih (n - 1) (dest + 1) (Function.update mem dest c) hn1
        have hm : min n (strlen cs + 1) = min (n - 1) (strlen cs) + 1 := by omega
        refine ⟨hret, ?_, ?_, ?_⟩
        · intro i hi
          cases i with
          | zero =>
            have e : dest + ((0 : Nat) : Int) = dest := by simp
            rw [e, i3 _ (Or.inl (by omega)), Function.update_same]
            exact ⟨rfl, hc⟩
          | succ j =>
            have := i1 j (by omega)
            have e : dest + ((j + 1 : Nat) : Int) = dest + 1 + (j : Int) := by push_cast; ring
            rw [e]
            simpa using this
        · rw [hm]
          have e : dest + ((min (n - 1) (strlen cs) + 1 : Nat) : Int) =
              dest + 1 + ((min (n - 1) (strlen cs) : Nat) : Int) := by push_cast; ring
          rw [e]; exact i2
        · intro a ha
          rw [i3 a (by omega), Function.update_noteq (by omega)]

/-- C9 at the failing input `n = 0`: with a NUL in the byte before `dest` and `x` in
`dest[0]`, `StrnCpy(dest, "abc", 0)` returns `dest` and writes nothing, so `dest[0]` is
still `x` and the destination does not hold the empty string. -/
theorem StrnCpy_zero_no_terminator :
    mem0 9 = NUL ∧ mem0 10 = 'x' ∧
    (StrnCpy mem0 10 "abc".toList 0).1 = 10 ∧
    (StrnCpy mem0 10 "abc".toList 0).2 10 = 'x' ∧
    (StrnCpy mem0 10 "abc".toList 0).2 10 ≠ NUL ∧
    ∀ (mem : Mem) (dest : Int) (source : List Char),
      mem (dest - 1) = NUL → (StrnCpy mem dest source 0).2 = mem := by
  refine ⟨by decide, by decide, by decide, by decide, by decide, ?_⟩
  intro mem dest source h
  cases source <;> simp [StrnCpy, StrnCpy.loop, h]

/-! ## C10: `StrMatch` -/

theorem UPPER_NUL : UPPER NUL = 0 := by decide

theorem UPPER_ne_zero (c : Char) (h : c ≠ NUL) : UPPER c ≠ 0 := by
  unfold UPPER Char.toUpper
  simp only
  split_ifs with hr
  · obtain ⟨h1, h2⟩ := hr
    generalize c.toNat = n at h1 h2
    interval_cases n <;> decide
  · intro h0
    apply h
    have : c.toNat = 0 := by exact_mod_cast h0
    rw [← Char.ofNat_toNat c, this]
    rfl

theorem UPPER_sub_eq_zero (c1 c2 : Char) : UPPER c1 - UPPER c2 = 0 ↔ c1.toUpper = c2.toUpper := by
  unfold UPPER
  constructor
  · intro h
    have h2 : c1.toUpper.toNat = c2.toUpper.toNat := by omega
    rw [← Char.ofNat_toNat c1.toUpper, h2, Char.ofNat_toNat]
  · intro h
    rw [h]; simp

theorem matchLen_le (s1 : List Char) : ∀ s2, matchLen s1 s2 ≤ strlen s1 := by
  induction s1 with
  | nil => intro s2; simp [matchLen]
  | cons c1 t1 ih =>
    intro s2
    cases s2 with
    | nil => simp [matchLen]
    | cons c2 t2 =>
      unfold matchLen strlen
      split_ifs with h1 h2
      · exact absurd h2 h1.1
      · have := ih t2; omega
      · omega
      · omega

theorem StrinCmp_strlen (s1 : List Char) :
    ∀ s2, StrinCmp s1 s2 (strlen s1) = 0 ↔ strlen s1 ≤ matchLen s1 s2 := by
  induction s1 with
  | nil => intro s2; simp [StrinCmp, strlen]
  | cons c1 t1 ih =>
    intro s2
    by_cases hc1 : c1 = NUL
    · have hs : strlen (c1 :: t1) = 0 := by simp [strlen, hc1]
      rw [hs]
      cases s2 <;> simp [StrinCmp]
    · have hs : strlen (c1 :: t1) = strlen t1 + 1 := by simp [strlen, hc1]
      have hn : ((strlen t1 + 1 : Nat) : Int) ≠ 0 := by omega
      rw [hs]
      cases s2 with
      | nil =>
        have : UPPER c1 - UPPER (deref []) ≠ 0 := by
          have := UPPER_ne_zero c1 hc1
          have h0 : UPPER (deref []) = 0 := UPPER_NUL
          omega
        simp only [StrinCmp, deref, List.headD_cons, if_pos hn, matchLen]
        constructor
        · intro h; exact absurd h this
        · intro h; omega
      | cons c2 t2 =>
        by_cases hc2 : c2 = NUL
        · have : UPPER c1 - UPPER c2 ≠ 0 := by
            have := UPPER_ne_zero c1 hc1
            rw [hc2, UPPER_NUL]; omega
          simp only [StrinCmp, matchLen, hc2, ne_eq, not_true_eq_false, and_false, false_and,
            if_false, if_pos hn]
          rw [hc2] at this
          constructor
          · intro h; exact absurd h this
          · intro h; omega
        · by_cases hr : UPPER c1 - UPPER c2 = 0
          · have hu := (UPPER_sub_eq_zero c1 c2).mp hr
            have e : ((strlen t1 + 1 : Nat) : Int) - 1 = (strlen t1 : Int) := by push_cast; ring
            simp only [StrinCmp, matchLen, ne_eq, hn, not_false_eq_true, hc1, hc2, and_self,
              if_true, hr, not_true_eq_false, if_false, hu, e]
            rw [ih t2]
            omega
          · have hu : ¬ c1.toUpper = c2.toUpper := fun h => hr ((UPPER_sub_eq_zero c1 c2).mpr h)
            simp only [StrinCmp, matchLen, ne_eq, hn, not_false_eq_true, hc1, hc2, and_self,
              if_true, hr, hu, and_false, if_false]
            constructor
            · intro h; exact h.elim
            · intro h; omega

/-- C10: `StrMatch(s1, s2, n)` returns 0 or 1, and returns non-zero exactly when `s1` and
`s2` match, ignoring case, to at least `n` characters or the length of `s1`, whichever is
greater: when the number of leading characters on which they agree is at least
`max(n, strlen(s1))`, that is when `s1` has at least `n` characters and all of them agree
with the characters of `s2` at the same places. -/
theorem StrMatch_iff (s1 s2 : List Char) (n : Int) :
    (StrMatch s1 s2 n = 0 ∨ StrMatch s1 s2 n = 1) ∧
    (StrMatch s1 s2 n ≠ 0 ↔ max n (strlen s1 : Int) ≤ (matchLen s1 s2 : Int)) ∧
    (StrMatch s1 s2 n ≠ 0 ↔ (n ≤ (strlen s1 : Int) ∧ matchLen s1 s2 = strlen s1)) := by
  have hle := matchLen_le s1 s2
  have key := StrinCmp_strlen s1 s2
  unfold StrMatch
  simp only
  split_ifs with h1 h2
  · refine ⟨Or.inl rfl, ?_, ?_⟩
    · simp only [ne_eq, not_true_eq_false, false_iff, not_le]
      have : (matchLen s1 s2 : Int) ≤ strlen s1 := by exact_mod_cast hle
      rw [lt_max_iff]; left; omega
    · simp only [ne_eq, not_true_eq_false, false_iff, not_and]
      intro h; omega
  · have := key.mp h2
    refine ⟨Or.inr rfl, ?_, ?_⟩
    · simp only [ne_eq, one_ne_zero, not_false_eq_true, true_iff, max_le_iff]
      constructor <;> omega
    · simp only [ne_eq, one_ne_zero, not_false_eq_true, true_iff]
      constructor <;> omega
  · have : ¬ strlen s1 ≤ matchLen s1 s2 := fun h => h2 (key.mpr h)
    refine ⟨Or.inl rfl, ?_, ?_⟩
    · simp only [ne_eq, not_true_eq_false, false_iff, not_le]
      rw [lt_max_iff]; right; omega
    · simp only [ne_eq, not_true_eq_false, false_iff, not_and]
      intro _; omega

/-! ## C11: the trailing space of `SimpleTime` and `CalendarTime` -/

theorem endsWithSpace_append (t : String) : endsWithSpace (t ++ " ") := by
  unfold endsWithSpace
  have : (t ++ " ").toList = t.toList ++ [' '] := by
    simp [String.toList, String.data_append]
  rw [this, List.getLast?_concat]

/-- C11, as the code has it: with `ScFormat` one of `SC_AMPM` and `SC_MIL` and a time `tim`
other than `NO_TIME`, the strings returned by `SimpleTime(tim)` and, for every duration, by
`CalendarTime(tim, duration)` end with a space; for `tim == NO_TIME` both functions return
the empty string, whatever the format and the duration. -/
theorem time_strings_trailing_space (c : TimeCfg) (tim : Int) :
    (c.ScFormat ≠ ScFmt.other → tim ≠ c.NO_TIME →
      endsWithSpace (SimpleTime c tim) ∧
      ∀ duration, endsWithSpace (CalendarTime c tim duration)) ∧
    SimpleTime c c.NO_TIME = "" ∧ ∀ duration, CalendarTime c c.NO_TIME duration = "" := by
  have hs : c.ScFormat ≠ ScFmt.other → tim ≠ c.NO_TIME → endsWithSpace (SimpleTime c tim) := by
    intro hf ht
    unfold SimpleTime
    cases hc : c.ScFormat with
    | SC_AMPM => simp only [if_pos ht]; exact endsWithSpace_append _
    | SC_MIL => simp only [if_pos ht]; exact endsWithSpace_append _
    | other => exact absurd hc hf
  refine ⟨fun hf ht => ⟨hs hf ht, ?_⟩, SimpleTime_NO_TIME c, ?_⟩
  · intro duration
    unfold CalendarTime
    split_ifs with hd
    · exact hs hf ht
    · cases hc : c.ScFormat with
      | SC_AMPM => exact endsWithSpace_append _
      | SC_MIL => exact endsWithSpace_append _
      | other => exact absurd hc hf
  · intro duration
    unfold CalendarTime
    by_cases hd : duration = c.NO_TIME
    · rw [if_pos hd]; exact SimpleTime_NO_TIME c
    · rw [if_neg hd, if_pos rfl]

/-- Witness of C11 as amended: 10:00 in 24-hour format, alone and with 30 minutes. -/
theorem time_strings_trailing_space_witness :
    SimpleTime milCfg 600 = "10:00 " ∧ CalendarTime milCfg 600 30 = "10:00-10:30 " ∧
    endsWithSpace (SimpleTime milCfg 600) ∧ endsWithSpace (CalendarTime milCfg 600 30) :=
  ⟨by decide, by decide,
    ((time_strings_trailing_space milCfg 600).1 (by decide) (by decide)).1,
    ((time_strings_trailing_space milCfg 600).1 (by decide) (by decide)).2 30⟩

/-- Counterexample to C11 as stated: for `NO_TIME` both functions return the empty string,
which does not end with a space. -/
theorem time_strings_trailing_space_counterexample :
    SimpleTime milCfg milCfg.NO_TIME = "" ∧ CalendarTime milCfg milCfg.NO_TIME 30 = "" ∧
    ¬ endsWithSpace (SimpleTime milCfg milCfg.NO_TIME) ∧
    ¬ endsWithSpace (CalendarTime milCfg milCfg.NO_TIME 30) :=
  ⟨by decide, by decide, by decide, by decide⟩

/-! ## C12: `ShellEscape` -/

theorem char_of_range (c : Char) (lo hi : Nat) (h1 : lo ≤ c.toNat) (h2 : c.toNat ≤ hi)
    (P : Char → Prop) (hP : ∀ n, lo ≤ n → n ≤ hi → P (Char.ofNat n)) : P c := by
  have := hP c.toNat h1 h2
  rwa [Char.ofNat_toNat] at this

theorem isSafe_mem (c : Char) (h : isSafe c = true) : c ∈ DontEscapeMe := by
  unfold isSafe at h
  simp only [Bool.or_eq_true, decide_eq_true_eq] at h
  rcases h with ((((((((h | h) | h) | h) | h) | h) | h) | h) | h) | h
  · unfold Char.isAlpha at h
    simp only [Bool.or_eq_true] at h
    rcases h with h | h
    · unfold Char.isUpper at h
      simp only [Bool.and_eq_true, decide_eq_true_eq] at h
      apply char_of_range c 65 90 h.1 h.2
      intro n h1 h2
      interval_cases n <;> decide
    · unfold Char.isLower at h
      simp only [Bool.and_eq_true, decide_eq_true_eq] at h
      apply char_of_range c 97 122 h.1 h.2
      intro n h1 h2
      interval_cases n <;> decide
  · unfold Char.isDigit at h
    simp only [Bool.and_eq_true, decide_eq_true_eq] at h
    apply char_of_range c 48 57 h.1 h.2
    intro n h1 h2
    interval_cases n <;> decide
  all_goals (subst h; decide)

theorem isSafe_iff (c : Char) : c ∈ DontEscapeMe ↔ isSafe c = true := by
  constructor
  · revert c; decide
  · exact isSafe_mem c

theorem escaped_length (l : List Char) :
    (l.flatMap escapeChar).length = l.length + (l.filter (fun c => !isSafe c)).length := by
  induction l with
  | nil => rfl
  | cons c cs ih =>
    rw [List.flatMap_cons, List.length_append, ih, List.filter_cons]
    by_cases h : isSafe c = true
    · simp [escapeChar, h]; omega
    · have h2 : isSafe c = false := by simpa using h
      simp [escapeChar, h2]; omega

/-- C12: `ShellEscape` escapes special shell characters with a backslash.  With a buffer that
never runs out of memory it returns `OK` and appends to `out`, for each character `c` of the
input string in order, `c` itself when `c` is in the safe set (ASCII letters, digits and
`_ - = + @ . , /`, the characters of `DontEscapeMe`) and a backslash followed by `c`
otherwise; the output grows by the length of the input plus the number of unsafe
characters. -/
theorem ShellEscape_escapes (putc : List Char → Char → Option (List Char))
    (hput : ∀ out c, putc out c = some (out ++ [c])) (inp out : List Char) :
    ShellEscape putc inp out = (Code.OK, out ++ (cstr inp).flatMap escapeChar) ∧
    (ShellEscape putc inp out).2.length =
      out.length + (cstr inp).length + ((cstr inp).filter (fun c => !isSafe c)).length ∧
    ∀ c, c ∈ DontEscapeMe ↔ isSafe c = true := by
  have main : ∀ (inp out : List Char),
      ShellEscape putc inp out = (Code.OK, out ++ (cstr inp).flatMap escapeChar) := by
    intro inp
    induction inp with
    | nil => intro out; simp [ShellEscape, cstr]
    | cons c cs ih =>
      intro out
      by_cases hc : c = NUL
      · simp [ShellEscape, cstr, hc]
      · by_cases hm : c ∈ DontEscapeMe
        · have hs : isSafe c = true := (isSafe_iff c).mp hm
          simp [ShellEscape, cstr, hc, hm, hput, ih, escapeChar, hs]
        · have hs : isSafe c = false := by
            cases h : isSafe c with
            | false => rfl
            | true => exact absurd ((isSafe_iff c).mpr h) hm
          simp [ShellEscape, cstr, hc, hm, hput, ih, escapeChar, hs]
  refine ⟨main inp out, ?_, isSafe_iff⟩
  rw [main, List.length_append, escaped_length]
  omega

/-- Witness of C12: blank and dollar sign are escaped, letters, `/` and `.` are not. -/
theorem ShellEscape_escapes_witness :
    ShellEscape putcAlways "a b$c/d.e".toList [] = (Code.OK, "a\\ b\\$c/d.e".toList) ∧
    (ShellEscape putcAlways "a b$c/d.e".toList []).2.length = 0 + 9 + 2 :=
  ⟨(ShellEscape_escapes putcAlways (fun _ _ => rfl) "a b$c/d.e".toList []).1.trans (by decide),
    by decide⟩

/-! ## C13: `StrCmpi` -/

theorem UPPER_eq_zero_iff (c : Char) : UPPER c = 0 ↔ c = NUL := by
  constructor
  · intro h
    by_contra hc
    exact UPPER_ne_zero c hc h
  · intro h; rw [h]; exact UPPER_NUL

theorem cstr_eq_nil_iff (s : List Char) : cstr s = [] ↔ deref s = NUL := by
  cases s with
  | nil => simp [cstr, deref]
  | cons c cs =>
    by_cases hc : c = NUL
    · simp [cstr, deref, hc]
    · simp [cstr, deref, hc]

theorem StrCmpi_zero (s1 : List Char) :
    ∀ s2, StrCmpi s1 s2 = 0 ↔ (cstr s1).map Char.toUpper = (cstr s2).map Char.toUpper := by
  induction s1 with
  | nil =>
    intro s2
    have h1 : StrCmpi [] s2 = UPPER (deref []) - UPPER (deref s2) := by
      cases s2 <;> rfl
    have h0 : UPPER (deref []) = 0 := UPPER_NUL
    rw [h1, h0]
    simp only [cstr, List.map_nil]
    constructor
    · intro h
      have : UPPER (deref s2) = 0 := by omega
      rw [(cstr_eq_nil_iff s2).mpr ((UPPER_eq_zero_iff _).mp this)]
      rfl
    · intro h
      have : cstr s2 = [] := by
        cases hc : cstr s2 with
        | nil => rfl
        | cons a l => rw [hc] at h; simp at h
      rw [(UPPER_eq_zero_iff _).mpr ((cstr_eq_nil_iff s2).mp this)]
      rfl
  | cons c1 t1 ih =>
    intro s2
    cases s2 with
    | nil =>
      have h1 : StrCmpi (c1 :: t1) [] = UPPER c1 - UPPER (deref []) := rfl
      have h0 : UPPER (deref []) = 0 := UPPER_NUL
      rw [h1, h0]
      by_cases hc : c1 = NUL
      · simp [cstr, hc, UPPER_NUL]
      · have := UPPER_ne_zero c1 hc
        simp only [cstr, if_neg hc, List.map_cons, List.map_nil]
        constructor
        · intro h; omega
        · intro h; simp at h
    | cons c2 t2 =>
      by_cases hc1 : c1 = NUL
      · by_cases hc2 : c2 = NUL
        · simp [StrCmpi, cstr, hc1, hc2]
        · have := UPPER_ne_zero c2 hc2
          simp only [StrCmpi, cstr, hc1, hc2, ne_eq, not_true_eq_false, false_and, if_false,
            if_true, UPPER_NUL, List.map_nil, List.map_cons]
          constructor
          · intro h; omega
          · intro h; simp at h
      · by_cases hc2 : c2 = NUL
        · have := UPPER_ne_zero c1 hc1
          simp only [StrCmpi, cstr, hc1, hc2, ne_eq, not_true_eq_false, and_false, if_false,
            if_true, UPPER_NUL, List.map_nil, List.map_cons]
          constructor
          · intro h; omega
          · intro h; simp at h
        · by_cases hr : UPPER c1 - UPPER c2 = 0
          · have hu := (UPPER_sub_eq_zero c1 c2).mp hr
            simp only [StrCmpi, cstr, hc1, hc2, ne_eq, not_false_eq_true, and_self, if_true,
              hr, not_true_eq_false, if_false, List.map_cons, hu, List.cons.injEq, true_and]
            exact ih t2
          · have hu : ¬ c1.toUpper = c2.toUpper :=
              fun h => hr ((UPPER_sub_eq_zero c1 c2).mpr h)
            simp only [StrCmpi, cstr, hc1, hc2, ne_eq, not_false_eq_true, and_self, if_true,
              hr, if_false, List.map_cons, List.cons.injEq, hu, false_and]

/-- C13: `StrCmpi` compares strings case-insensitively.  `StrCmpi(s1, s2)` returns 0 exactly
when the two strings have the same length and are equal character by character after
upper-casing. -/
theorem StrCmpi_eq_zero_iff (s1 s2 : List Char) :
    StrCmpi s1 s2 = 0 ↔
      ((cstr s1).length = (cstr s2).length ∧
        (cstr s1).map Char.toUpper = (cstr s2).map Char.toUpper) := by
  rw [StrCmpi_zero]
  constructor
  · intro h
    refine ⟨?_, h⟩
    have := congrArg List.length h
    simpa using this
  · exact fun h => h.2

/-! ## C14: weekday columns -/

/-- C14: the weekday column is periodic with period 7.  For every day number `d >= 0` the
column that `WriteCalendarRow` computes for `d + 7` is the one it computes for `d`, Sunday
first (`(d + 1) % 7`) as Monday first (`d % 7`), and the column is in 0..6; the week start
that `ProduceCalendar` computes moves by 7 and lies in column 0. -/
theorem weekday_column_periodic (MondayFirst d : Int) (hd : 0 ≤ d) :
    WriteCalendarRow.wd MondayFirst (d + 7) = WriteCalendarRow.wd MondayFirst d ∧
    0 ≤ WriteCalendarRow.wd MondayFirst d ∧ WriteCalendarRow.wd MondayFirst d ≤ 6 ∧
    (MondayFirst ≠ 0 → WriteCalendarRow.wd MondayFirst d = d % 7) ∧
    (MondayFirst = 0 → WriteCalendarRow.wd MondayFirst d = (d + 1) % 7) ∧
    ProduceCalendar.weekStart MondayFirst (d + 7) = ProduceCalendar.weekStart MondayFirst d + 7 ∧
    WriteCalendarRow.wd MondayFirst (ProduceCalendar.weekStart MondayFirst d) = 0 := by
  have e1 : Int.tmod d 7 = d % 7 := Int.tmod_eq_emod hd (by norm_num)
  have e2 : Int.tmod (d + 1) 7 = (d + 1) % 7 := Int.tmod_eq_emod (by omega) (by norm_num)
  have e3 : Int.tmod (d + 7) 7 = (d + 7) % 7 := Int.tmod_eq_emod (by omega) (by norm_num)
  have e4 : Int.tmod (d + 7 + 1) 7 = (d + 7 + 1) % 7 :=
    Int.tmod_eq_emod (by omega) (by norm_num)
  have e5 : Int.tmod (d - d % 7) 7 = (d - d % 7) % 7 :=
    Int.tmod_eq_emod (by omega) (by norm_num)
  have e6 : Int.tmod (d - (d + 1) % 7 + 1) 7 = (d - (d + 1) % 7 + 1) % 7 :=
    Int.tmod_eq_emod (by omega) (by norm_num)
  unfold WriteCalendarRow.wd ProduceCalendar.weekStart
  by_cases hm : MondayFirst = 0
  · simp only [hm, if_true, ne_eq, not_true_eq_false, if_false, e2, e4, e6]
    refine ⟨by omega, by omega, by omega, fun h => h.elim, fun _ => trivial, by omega,
      by omega⟩
  · simp only [hm, if_false, ne_eq, not_false_eq_true, if_true, e1, e3, e5]
    refine ⟨by omega, by omega, by omega, fun _ => trivial, fun h => h.elim, by omega,
      by omega⟩

/-- Witness of C14: day numbers 3 and 10 are in column 3 Monday first and in column 4 Sunday
first. -/
theorem weekday_column_periodic_witness :
    WriteCalendarRow.wd 1 10 = 3 ∧ WriteCalendarRow.wd 1 3 = 3 ∧
    WriteCalendarRow.wd 0 10 = 4 ∧ WriteCalendarRow.wd 0 3 = 4 ∧
    WriteCalendarRow.wd 1 (3 + 7) = WriteCalendarRow.wd 1 3 :=
  ⟨by decide, by decide, by decide, by decide,
    (weekday_column_periodic 1 3 (by decide)).1⟩

/-! ## C15: the range of day numbers -/

theorem DateOK_accept (y m d : Int) (h : DateOK y m d = some 1) :
    BASE ≤ y ∧ y ≤ BASE + YR_RANGE ∧ 0 ≤ m ∧ m ≤ 11 ∧ 1 ≤ d ∧
      ∃ dim, DaysInMonth m y = some dim ∧ d ≤ dim := by
  unfold DateOK at h
  split_ifs at h with h1 h2 h3 h4 h5
  · simp at h
  · simp at h
  · simp at h
  · simp at h
  · simp at h
  · cases hd : DaysInMonth m y with
    | none => rw [hd] at h; simp at h
    | some dim =>
      rw [hd] at h
      simp only at h
      split_ifs at h with h6
      · simp at h
      · exact ⟨by omega, by omega, by omega, by omega, by omega, dim, rfl, by omega⟩

theorem DaysInYear_pos (y : Int) : 365 ≤ DaysInYear y ∧ DaysInYear y ≤ 366 := by
  unfold DaysInYear
  split_ifs <;> omega

theorem yearSum_succ (n : Nat) :
    ((List.range (n + 1)).map (fun (i : Nat) => DaysInYear (BASE + (i : Int)))).sum =
      ((List.range n).map (fun (i : Nat) => DaysInYear (BASE + (i : Int)))).sum +
        DaysInYear (BASE + (n : Int)) := by
  rw [List.range_succ, List.map_append, List.sum_append]
  simp

theorem yearSum_mono (n k : Nat) (h : n ≤ k) :
    ((List.range n).map (fun (i : Nat) => DaysInYear (BASE + (i : Int)))).sum ≤
      ((List.range k).map (fun (i : Nat) => DaysInYear (BASE + (i : Int)))).sum := by
  induction k with
  | zero =>
    have : n = 0 := by omega
    subst this; exact le_refl _
  | succ k ih =>
    by_cases hk : n = k + 1
    · subst hk; exact le_refl _
    · have := ih (by omega)
      have hp := (DaysInYear_pos (BASE + (k : Int))).1
      rw [yearSum_succ]
      omega

set_option maxRecDepth 100000 in
theorem yearSum_89 :
    ((List.range 89).map (fun (i : Nat) => DaysInYear (BASE + (i : Int)))).sum = 32507 := by
  decide

theorem monthSum_le (y m d dim : Int) (h0 : 0 ≤ m) (h11 : m ≤ 11)
    (hdim : DaysInMonth m y = some dim) (hd : d ≤ dim) :
    0 ≤ ((List.range m.toNat).map (fun (i : Nat) => (DaysInMonth (i : Int) y).getD 0)).sum ∧
    ((List.range m.toNat).map (fun (i : Nat) => (DaysInMonth (i : Int) y).getD 0)).sum + d ≤
      DaysInYear y := by
  unfold DaysInYear
  cases hl : IsLeapYear y <;>
    interval_cases m <;>
    simp [DaysInMonth, hl, MonthDays, List.range_succ] at hdim ⊢ <;>
    omega

set_option maxRecDepth 100000 in
theorem Julian_last : DateOK 2078 11 31 = some 1 ∧ Julian 2078 11 31 = 32506 := by
  decide

/-- C15: the supported year window keeps day numbers small.  For every date that `DateOK`
accepts, the number of days from 1 January `BASE` to that date is between 0 and 32506, a
value that fits in a 16-bit signed integer; the bounds are reached on 1 January 1990 and
31 December 2078. -/
theorem DateOK_day_number_range (y m d : Int) (h : DateOK y m d = some 1) :
    0 ≤ Julian y m d ∧ Julian y m d ≤ 32506 ∧ (32506 : Int) < 2 ^ 15 ∧
    Julian BASE 0 1 = 0 ∧ Julian 2078 11 31 = 32506 := by
  obtain ⟨hy1, hy2, hm1, hm2, hd1, dim, hdim, hd2⟩ := DateOK_accept y m d h
  obtain ⟨hs0, hs1⟩ := monthSum_le y m d dim hm1 hm2 hdim hd2
  have hB : BASE = 1990 := rfl
  have hR : YR_RANGE = 88 := rfl
  have hn : (((y - BASE).toNat : Nat) : Int) = y - BASE := Int.toNat_of_nonneg (by omega)
  have hy : BASE + (((y - BASE).toNat : Nat) : Int) = y := by omega
  have hle : (y - BASE).toNat + 1 ≤ 89 := by omega
  have h1 := yearSum_mono ((y - BASE).toNat + 1) 89 hle
  rw [yearSum_89, yearSum_succ, hy] at h1
  have h0 := yearSum_mono 0 (y - BASE).toNat (Nat.zero_le _)
  simp only [List.range_zero, List.map_nil, List.sum_nil] at h0
  refine ⟨?_, ?_, by norm_num, by decide, Julian_last.2⟩
  · unfold Julian; omega
  · unfold Julian; omega

/-- Witness of C15: 29 February 2000 is accepted and has day number 3711. -/
theorem DateOK_day_number_range_witness :
    DateOK 2000 1 29 = some 1 ∧ Julian 2000 1 29 = 3711 ∧
    0 ≤ Julian 2000 1 29 ∧ Julian 2000 1 29 ≤ 32506 :=
  ⟨by decide, by decide, (DateOK_day_number_range 2000 1 29 (by decide)).1,
    (DateOK_day_number_range 2000 1 29 (by decide)).2.1⟩

/-! ## C16: the weekday of 1 January of the base year -/

/-- C16: January 1 of the base year is a Monday.  By Zeller's congruence 1 January 1990 is
a Monday in the Gregorian calendar; it has day number 0, which `WriteCalendarRow` puts in
column 0 Monday first (`d % 7`) and in column 1 Sunday first (`(d + 1) % 7`), and in both
layouts `WriteCalDays` heads that column with `DayName[0]`. -/
theorem base_year_starts_on_monday :
    BASE = 1990 ∧ zeller BASE 1 1 = 2 ∧ Julian BASE 0 1 = 0 ∧
    (∀ MondayFirst, MondayFirst ≠ 0 → WriteCalendarRow.wd MondayFirst 0 = 0) ∧
    WriteCalendarRow.wd 0 0 = 1 ∧
    (∀ MondayFirst, MondayFirst ≠ 0 →
      WriteCalDays.nameIndex MondayFirst (WriteCalendarRow.wd MondayFirst 0) = 0) ∧
    WriteCalDays.nameIndex 0 (WriteCalendarRow.wd 0 0) = 0 := by
  refine ⟨rfl, by decide, by decide, ?_, by decide, ?_, by decide⟩
  · intro mf h
    simp [WriteCalendarRow.wd, h]
  · intro mf h
    simp [WriteCalendarRow.wd, WriteCalDays.nameIndex, h]

/-! ## C17: `E_EXPIRED` in `DoCalRem` -/

theorem DoCalRem_of_ret (w : World) (x : Ext) (col : List CalEntry) (r : Code)
    (h : DoCalRem.trigger w x = Step.ret r) :
    DoCalRem w x col = ⟨r, col, w.NumTriggered, [], none, ""⟩ := by
  unfold DoCalRem DoCalRem.resolve
  rw [h]

theorem trigger_sat_expired (w : World) (x : Ext) (trig : Trigger) (tim : TimeTrig)
    (hp : x.ParseRem = (Code.OK, trig, tim)) (hty : trig.typ = RemType.SAT_TYPE)
    (hr : (x.DoSatRemind trig tim).1 = Code.E_EXPIRED) :
    DoCalRem.trigger w x = Step.ret Code.OK := by
  unfold DoCalRem.trigger
  rw [hp]
  dsimp only
  rw [if_neg (by simp)]
  by_cases h1 : w.DontIssueAts ≠ 0 ∧ tim.ttime ≠ w.NO_TIME
  · rw [if_pos h1]
  · rw [if_neg h1, if_neg (by rw [hty]; decide), if_pos hty, if_pos (by rw [hr]; decide),
      if_pos hr]

theorem trigger_compute_error (w : World) (x : Ext) (trig : Trigger) (tim : TimeTrig)
    (hp : x.ParseRem = (Code.OK, trig, tim)) (hty : trig.typ ≠ RemType.SAT_TYPE)
    (hr : (x.ComputeTrigger trig.scanfrom trig tim).2.1 ≠ Code.OK) :
    ∃ r, DoCalRem.trigger w x = Step.ret r ∧
      ((w.DontIssueAts = 0 ∨ tim.ttime = w.NO_TIME) → trig.typ ≠ RemType.NO_TYPE →
        r = (x.ComputeTrigger trig.scanfrom trig tim).2.1) := by
  unfold DoCalRem.trigger
  rw [hp]
  dsimp only
  rw [if_neg (by simp)]
  by_cases h1 : w.DontIssueAts ≠ 0 ∧ tim.ttime ≠ w.NO_TIME
  · rw [if_pos h1]
    refine ⟨_, rfl, fun ha _ => ?_⟩
    rcases ha with ha | ha
    · exact absurd ha h1.1
    · exact absurd ha h1.2
  · rw [if_neg h1]
    by_cases h2 : trig.typ = RemType.NO_TYPE
    · rw [if_pos h2]
      exact ⟨_, rfl, fun _ hb => absurd h2 hb⟩
    · rw [if_neg h2, if_neg hty, if_pos hr]
      exact ⟨_, rfl, fun _ _ => rfl⟩

/-- What `DoCalRem` keeps of the recovery from `E_EXPIRED`: whenever trigger resolution
reports `E_EXPIRED`, no entry is added to the column, on the satisfied-reminder path
(`DoSatRemind`) as on the `ComputeTrigger` path; on the `DoSatRemind` path `DoCalRem` returns
`OK` (line 1150). -/
theorem DoCalRem_expired (w : World) (x : Ext) (col : List CalEntry) (trig : Trigger)
    (tim : TimeTrig) (hp : x.ParseRem = (Code.OK, trig, tim)) :
    (trig.typ = RemType.SAT_TYPE → (x.DoSatRemind trig tim).1 = Code.E_EXPIRED →
      (DoCalRem w x col).ret = Code.OK ∧ (DoCalRem w x col).column = col ∧
        (DoCalRem w x col).entry = none) ∧
    (trig.typ ≠ RemType.SAT_TYPE →
      (x.ComputeTrigger trig.scanfrom trig tim).2.1 = Code.E_EXPIRED →
      (DoCalRem w x col).column = col ∧ (DoCalRem w x col).entry = none) := by
  constructor
  · intro hty hr
    rw [DoCalRem_of_ret w x col _ (trigger_sat_expired w x trig tim hp hty hr)]
    exact ⟨rfl, rfl, rfl⟩
  · intro hty hr
    obtain ⟨r, h1, -⟩ := trigger_compute_error w x trig tim hp hty (by rw [hr]; decide)
    rw [DoCalRem_of_ret w x col _ h1]
    exact ⟨rfl, rfl⟩

/-- An expired `SATISFY` reminder gives `OK` and leaves `col0`. -/
theorem DoCalRem_expired_witness :
    (xSatExpired.DoSatRemind { trig0 with typ := RemType.SAT_TYPE } ⟨600, 2147483647⟩).1 =
      Code.E_EXPIRED ∧
    (DoCalRem w0 xSatExpired col0).ret = Code.OK ∧ (DoCalRem w0 xSatExpired col0).column = col0 ∧
      (DoCalRem w0 xSatExpired col0).entry = none :=
  ⟨rfl, (DoCalRem_expired w0 xSatExpired col0 _ _ rfl).1 rfl rfl⟩

theorem trigger_timed_skipped (w : World) (x : Ext) (trig : Trigger) (tim : TimeTrig)
    (hp : x.ParseRem = (Code.OK, trig, tim)) (ha : w.DontIssueAts ≠ 0)
    (ht : tim.ttime ≠ w.NO_TIME) : DoCalRem.trigger w x = Step.ret Code.OK := by
  unfold DoCalRem.trigger
  rw [hp]
  dsimp only
  rw [if_neg (by simp), if_pos ⟨ha, ht⟩]

theorem trigger_untimed (w : World) (x : Ext) (trig : Trigger) (tim : TimeTrig)
    (hp : x.ParseRem = (Code.OK, trig, tim)) (ht : tim.ttime = w.NO_TIME) (v : Int) :
    DoCalRem.trigger { w with DontIssueAts := v } x = DoCalRem.trigger w x := by
  unfold DoCalRem.trigger
  rw [hp]
  dsimp only
  have hA : ¬ (v ≠ 0 ∧ tim.ttime ≠ w.NO_TIME) := fun h => h.2 ht
  have hB : ¬ (w.DontIssueAts ≠ 0 ∧ tim.ttime ≠ w.NO_TIME) := fun h => h.2 ht
  rw [if_neg (by simp), if_neg hA, if_neg hB]
  rfl

theorem SortCol_atflag (w : World) (x : Ext) (v : Int) (e : CalEntry) :
    ∀ col, SortCol { w with DontIssueAts := v } x e col = SortCol w x e col := by
  intro col
  induction col with
  | nil => rfl
  | cons next rest ih =>
    simp only [SortCol, ih]
    rfl

theorem link_atflag (w : World) (x : Ext) (v : Int) (col : List CalEntry) (s : Resolved)
    (nt : Int) (raw_buf obuf : String) (calls : List Call) :
    DoCalRem.link { w with DontIssueAts := v } x col s nt raw_buf obuf calls =
      DoCalRem.link w x col s nt raw_buf obuf calls := by
  unfold DoCalRem.link
  simp only [SortCol_atflag]
  rfl

theorem subst_atflag (w : World) (x : Ext) (v : Int) (col : List CalEntry) (s : Resolved)
    (nt : Int) (raw_buf obuf : String) (calls : List Call) :
    DoCalRem.subst { w with DontIssueAts := v } x col s nt raw_buf obuf calls =
      DoCalRem.subst w x col s nt raw_buf obuf calls := by
  unfold DoCalRem.subst
  simp only [link_atflag]
  rfl

theorem addEntry_atflag (w : World) (x : Ext) (v : Int) (col : List CalEntry) (s : Resolved) :
    DoCalRem.addEntry { w with DontIssueAts := v } x col s = DoCalRem.addEntry w x col s := by
  unfold DoCalRem.addEntry
  simp only [subst_atflag]
  rfl

theorem special_atflag (w : World) (x : Ext) (v : Int) (s : Triggered) :
    DoCalRem.special { w with DontIssueAts := v } x s = DoCalRem.special w x s := rfl

/-- C19: timed reminders are left out of the calendar under the `-a` option.  For a reminder
that parses: when `DontIssueAts` is set and the reminder has a time
(`tim.ttime != NO_TIME`), `DoCalRem` returns `OK` and leaves `CalColumn[col]` as it was,
whatever the trigger type and the trigger date; for an untimed reminder the result of
`DoCalRem` does not depend on `DontIssueAts`. -/
theorem DoCalRem_DontIssueAts (w : World) (x : Ext) (col : List CalEntry) (trig : Trigger)
    (tim : TimeTrig) (hp : x.ParseRem = (Code.OK, trig, tim)) :
    (w.DontIssueAts ≠ 0 → tim.ttime ≠ w.NO_TIME →
      (DoCalRem w x col).ret = Code.OK ∧ (DoCalRem w x col).column = col ∧
        (DoCalRem w x col).entry = none) ∧
    (tim.ttime = w.NO_TIME →
      ∀ v, DoCalRem { w with DontIssueAts := v } x col = DoCalRem w x col) := by
  constructor
  · intro ha ht
    rw [DoCalRem_of_ret w x col _ (trigger_timed_skipped w x trig tim hp ha ht)]
    exact ⟨rfl, rfl, rfl⟩
  · intro ht v
    unfold DoCalRem DoCalRem.resolve
    rw [trigger_untimed w x trig tim hp ht v]
    cases DoCalRem.trigger w x with
    | ret r => rfl
    | go s =>
      simp only [special_atflag]
      cases DoCalRem.special w x s with
      | ret r => rfl
      | go s2 => exact addEntry_atflag w x v col s2

/-- Witness of C19: with `-a` the 10:00 reminder of `x0` is left out of `col0`. -/
theorem DoCalRem_DontIssueAts_witness :
    ({ w0 with DontIssueAts := 1 } : World).DontIssueAts ≠ 0 ∧
    (DoCalRem { w0 with DontIssueAts := 1 } x0 col0).ret = Code.OK ∧
    (DoCalRem { w0 with DontIssueAts := 1 } x0 col0).column = col0 ∧
    (DoCalRem { w0 with DontIssueAts := 1 } x0 col0).entry = none ∧
    (DoCalRem w0 x0 col0).column ≠ col0 :=
  ⟨by decide,
    ((DoCalRem_DontIssueAts { w0 with DontIssueAts := 1 } x0 col0 _ _ rfl).1 (by decide)
      (by decide)).1,
    ((DoCalRem_DontIssueAts { w0 with DontIssueAts := 1 } x0 col0 _ _ rfl).1 (by decide)
      (by decide)).2.1,
    ((DoCalRem_DontIssueAts { w0 with DontIssueAts := 1 } x0 col0 _ _ rfl).1 (by decide)
      (by decide)).2.2,
    by decide⟩

/-! ## C20: `Colorize` -/

/-- C20: `Colorize` never produces text invisible against the terminal background.  For all
integers `r`, `g`, `b` it returns one of the 16 sequences of the table.  With a dark
background every colour with `r`, `g`, `b` all `<= 64` maps to grey (`ESC[30;1m`) and the
dim black `ESC[0;30m` is never returned; with a light background every colour with `r`, `g`,
`b` all `> 64` maps to grey and neither white sequence is returned; with any other
background setting grey is never returned. -/
theorem Colorize_visible (bg : TermBg) (r g b : Int) :
    (∃ s, Colorize bg r g b = some s ∧ s ∈ colorSequences) ∧ colorSequences.length = 16 ∧
    (bg = TermBg.TERMINAL_BACKGROUND_DARK →
      (r ≤ 64 → g ≤ 64 → b ≤ 64 → Colorize bg r g b = some "\x1B[30;1m") ∧
      Colorize bg r g b ≠ some "\x1B[0;30m") ∧
    (bg = TermBg.TERMINAL_BACKGROUND_LIGHT →
      (r > 64 → g > 64 → b > 64 → Colorize bg r g b = some "\x1B[30;1m") ∧
      Colorize bg r g b ≠ some "\x1B[0;37m" ∧ Colorize bg r g b ≠ some "\x1B[37;1m") ∧
    (bg ≠ TermBg.TERMINAL_BACKGROUND_DARK → bg ≠ TermBg.TERMINAL_BACKGROUND_LIGHT →
      Colorize bg r g b ≠ some "\x1B[30;1m") := by
  have hlen : colorSequences.length = 16 := by decide
  by_cases hr : r > 64 <;> by_cases hg : g > 64 <;> by_cases hb : b > 64 <;>
    by_cases hB : (r > 128 ∨ g > 128 ∨ b > 128) <;> cases bg <;>
    first
      | (exfalso; omega)
      | (simp [Colorize, hr, hg, hb, hB, VT100Colors.lookup, VT100Colors, hlen]
         try decide)

/-! ## C18: `GenerateCalEntries` -/

theorem dispatch_exit (l : Line) (col : List CalEntry) :
    (GenerateCalEntries.dispatch l col).2.2 =
      (decide (l.tok_type = TokType.T_Exit) && !l.DoExit_returns) := by
  unfold GenerateCalEntries.dispatch
  cases h : l.tok_type <;> simp only [] <;> (try split_ifs) <;> simp

theorem loop_step (l : Line) (rest : List Line) (fin : ReadEnd) (col : List CalEntry)
    (h : l.exits = false) :
    (GenerateCalEntries.loop (l :: rest) fin col).linesRead =
      (GenerateCalEntries.loop rest fin
        (if GenerateCalEntries.ignore l = true then col
          else (GenerateCalEntries.dispatch l col).2.1)).linesRead + 1 ∧
    (GenerateCalEntries.loop (l :: rest) fin col).ending =
      (GenerateCalEntries.loop rest fin
        (if GenerateCalEntries.ignore l = true then col
          else (GenerateCalEntries.dispatch l col).2.1)).ending ∧
    (GenerateCalEntries.loop (l :: rest) fin col).reported =
      (if GenerateCalEntries.ignore l = true then []
        else GenerateCalEntries.report l (GenerateCalEntries.dispatch l col).1) ++
      (GenerateCalEntries.loop rest fin
        (if GenerateCalEntries.ignore l = true then col
          else (GenerateCalEntries.dispatch l col).2.1)).reported := by
  by_cases hi : GenerateCalEntries.ignore l = true
  · rw [GenerateCalEntries.loop]
    simp [hi]
  · have hx : (GenerateCalEntries.dispatch l col).2.2 = false := by
      rw [dispatch_exit]
      unfold Line.exits at h
      have hi' : GenerateCalEntries.ignore l = false := by simpa using hi
      rw [hi'] at h
      simpa using h
    rw [GenerateCalEntries.loop]
    simp [hi, hx]

theorem loop_all (lines : List Line) (fin : ReadEnd) :
    ∀ col, (∀ l ∈ lines, l.exits = false) →
      (GenerateCalEntries.loop lines fin col).linesRead = lines.length ∧
      (GenerateCalEntries.loop lines fin col).ending =
        (match fin with
          | ReadEnd.E_EOF => Ending.returned
          | ReadEnd.failed r => Ending.exit_read r) := by
  induction lines with
  | nil =>
    intro col _
    cases fin <;> exact ⟨rfl, rfl⟩
  | cons l rest ih =>
    intro col h
    obtain ⟨h1, h2, -⟩ := loop_step l rest fin col (h l (List.mem_cons_self _ _))
    obtain ⟨i1, i2⟩ := ih (if GenerateCalEntries.ignore l = true then col
      else (GenerateCalEntries.dispatch l col).2.1)
      (fun l' hl' => h l' (List.mem_cons_of_mem _ hl'))
    rw [h1, h2, i1, i2]
    exact ⟨rfl, rfl⟩

theorem loop_exit (lines : List Line) (fin : ReadEnd) :
    ∀ col, (GenerateCalEntries.loop lines fin col).ending = Ending.exit_command →
      ∃ l ∈ lines, l.exits = true ∧ l.tok_type = TokType.T_Exit := by
  induction lines with
  | nil =>
    intro col h
    cases fin <;> simp [GenerateCalEntries.loop] at h
  | cons l rest ih =>
    intro col h
    by_cases hx : l.exits = true
    · refine ⟨l, List.mem_cons_self _ _, hx, ?_⟩
      unfold Line.exits at hx
      simp only [Bool.and_eq_true, decide_eq_true_eq] at hx
      exact hx.1.2
    · have hx' : l.exits = false := by simpa using hx
      rw [(loop_step l rest fin col hx').2.1] at h
      obtain ⟨l', hl', h'⟩ := ih _ h
      exact ⟨l', List.mem_cons_of_mem _ hl', h'⟩

/-- C18: one bad line never aborts the batch.  In `GenerateCalEntries`, whatever code the
handler of a line returns (`DoCalRem` included), a line that is not an `EXIT` command ending
the program is followed by the reading of the next line, and its code is reported exactly
when it is not `OK` and not `E_RUN_DISABLED` with `Hush` set.  Without such an `EXIT` line
every line is read and the call ends as `ReadLine` ends: it returns at end of file and the
program exits on a read error; the program ends in a command only in an `EXIT` line. -/
theorem GenerateCalEntries_never_aborts (lines : List Line) (fin : ReadEnd)
    (col : List CalEntry) :
    (∀ (l : Line) (rest : List Line) (c : List CalEntry), l.exits = false →
      (GenerateCalEntries.loop (l :: rest) fin c).linesRead =
        (GenerateCalEntries.loop rest fin
          (if GenerateCalEntries.ignore l = true then c
            else (GenerateCalEntries.dispatch l c).2.1)).linesRead + 1 ∧
      (GenerateCalEntries.loop (l :: rest) fin c).ending =
        (GenerateCalEntries.loop rest fin
          (if GenerateCalEntries.ignore l = true then c
            else (GenerateCalEntries.dispatch l c).2.1)).ending ∧
      (GenerateCalEntries.loop (l :: rest) fin c).reported =
        (if GenerateCalEntries.ignore l = true then []
          else GenerateCalEntries.report l (GenerateCalEntries.dispatch l c).1) ++
        (GenerateCalEntries.loop rest fin
          (if GenerateCalEntries.ignore l = true then c
            else (GenerateCalEntries.dispatch l c).2.1)).reported) ∧
    (∀ (l : Line) (r : Code),
      GenerateCalEntries.report l r =
        if r = Code.OK ∨ (l.Hush ≠ 0 ∧ r = Code.E_RUN_DISABLED) then [] else [r]) ∧
    ((∀ l ∈ lines, l.exits = false) →
      (GenerateCalEntries Code.OK lines fin col).linesRead = lines.length ∧
      (GenerateCalEntries Code.OK lines fin col).ending =
        (match fin with
          | ReadEnd.E_EOF => Ending.returned
          | ReadEnd.failed r => Ending.exit_read r)) ∧
    ((GenerateCalEntries Code.OK lines fin col).ending = Ending.exit_command →
      ∃ l ∈ lines, l.exits = true ∧ l.tok_type = TokType.T_Exit) := by
  refine ⟨fun l rest c h => loop_step l rest fin c h, ?_, ?_, ?_⟩
  · intro l r
    unfold GenerateCalEntries.report
    by_cases h1 : r = Code.OK
    · simp [h1]
    · by_cases h2 : l.Hush = 0
      · simp [h1, h2]
      · by_cases h3 : r = Code.E_RUN_DISABLED
        · simp [h2, h3]
        · simp [h1, h2, h3]
  · intro h
    have : GenerateCalEntries Code.OK lines fin col = GenerateCalEntries.loop lines fin col := by
      simp [GenerateCalEntries]
    rw [this]
    exact loop_all lines fin col h
  · intro h
    have : GenerateCalEntries Code.OK lines fin col = GenerateCalEntries.loop lines fin col := by
      simp [GenerateCalEntries]
    rw [this] at h
    exact loop_exit lines fin col h

/-- Witness of C18: a `REM` line whose body fails, then the `REM` line of `x0`: the error is
reported, both lines are read, the second is entered, and the call returns at end of file. -/
theorem GenerateCalEntries_never_aborts_witness :
    (GenerateCalEntries.dispatch lineBad []).1 = Code.other 7 ∧
    (GenerateCalEntries Code.OK [lineBad, lineOk] ReadEnd.E_EOF []).reported = [Code.other 7] ∧
    (GenerateCalEntries Code.OK [lineBad, lineOk] ReadEnd.E_EOF []).column.map (fun e => e.text) =
      ["10:00 Meeting"] ∧
    (GenerateCalEntries Code.OK [lineBad, lineOk] ReadEnd.E_EOF []).linesRead = 2 ∧
    (GenerateCalEntries Code.OK [lineBad, lineOk] ReadEnd.E_EOF []).ending = Ending.returned :=
  ⟨by decide, by decide, by decide,
    ((GenerateCalEntries_never_aborts [lineBad, lineOk] ReadEnd.E_EOF []).2.2.1
      (by decide)).1,
    ((GenerateCalEntries_never_aborts [lineBad, lineOk] ReadEnd.E_EOF []).2.2.1
      (by decide)).2⟩

/-! ## C21: `PrintCentered` -/

theorem padFrom_eq (pad : String) (hi : Int) :
    ∀ (fuel : Nat) (i : Int), (fuel : Int) ≤ hi - i →
      PrintCentered.padFrom pad hi fuel i = List.replicate fuel pad := by
  intro fuel
  induction fuel with
  | zero => intro i _; rfl
  | succ k ih =>
    intro i h
    have hlt : i < hi := by push_cast at h; omega
    rw [PrintCentered.padFrom, if_pos hlt, ih (i + 1) (by push_cast at h; omega)]
    rfl

theorem padLoop_eq (pad : String) (lo hi : Int) :
    PrintCentered.padLoop pad lo hi = List.replicate (hi - lo).toNat pad := by
  unfold PrintCentered.padLoop
  by_cases h : lo ≤ hi
  · apply padFrom_eq
    omega
  · have e : (hi - lo).toNat = 0 := by omega
    rw [e]
    rfl

theorem cstr_length (s : List Char) : (cstr s).length = strlen s := by
  induction s with
  | nil => rfl
  | cons c cs ih =>
    by_cases hc : c = NUL
    · simp [cstr, strlen, hc]
    · simp [cstr, strlen, hc, ih]

theorem charLoop_eq (s : List Char) :
    ∀ (i width : Int),
      PrintCentered.charLoop s i width =
        ((cstr s).take (width - i).toNat).map String.singleton := by
  induction s with
  | nil => intro i width; simp [PrintCentered.charLoop, cstr]
  | cons c cs ih =>
    intro i width
    by_cases hlt : i < width
    · by_cases hc : c = NUL
      · simp [PrintCentered.charLoop, cstr, hlt, hc]
      · have e : (width - i).toNat = (width - (i + 1)).toNat + 1 := by omega
        rw [PrintCentered.charLoop, if_pos hlt, if_pos hc, ih, cstr, if_neg hc, e,
          List.take_succ_cons, List.map_cons]
    · have e : (width - i).toNat = 0 := by omega
      rw [PrintCentered.charLoop, if_neg hlt, e]
      rfl

theorem tdiv_two_of_nonneg (a : Int) (h : 0 ≤ a) : Int.tdiv a 2 = a / 2 :=
  Int.tdiv_eq_ediv h (by norm_num)

theorem tdiv_two_of_neg (a : Int) (h : a < 0) : Int.tdiv a 2 = -((-a) / 2) := by
  have h1 : Int.tdiv a 2 = -(Int.tdiv (-a) 2) := by
    rw [Int.neg_tdiv, neg_neg]
  rw [h1, Int.tdiv_eq_ediv (by omega) (by norm_num)]

/-- C21: `PrintCentered` centres text in exactly `width` cells.  For every string `s` of
length `len`, every `width >= 0` and every pad it writes exactly `width` pieces (cells, for
a one-cell pad).  When `len <= width` these are `(width - len) / 2` pads, then the characters
of `s`, then the remaining pads, so that the right padding equals the left padding or exceeds
it by one; when `len > width` they are the first `width` characters of `s` and no pad. -/
theorem PrintCentered_width (s : List Char) (w : Nat) (pad : String) :
    (PrintCentered s (w : Int) pad).length = w ∧
    (strlen s ≤ w →
      PrintCentered s (w : Int) pad =
        List.replicate ((w - strlen s) / 2) pad ++ (cstr s).map String.singleton ++
          List.replicate (w - strlen s - (w - strlen s) / 2) pad ∧
      (w - strlen s - (w - strlen s) / 2 = (w - strlen s) / 2 ∨
        w - strlen s - (w - strlen s) / 2 = (w - strlen s) / 2 + 1)) ∧
    (w < strlen s →
      PrintCentered s (w : Int) pad = ((cstr s).take w).map String.singleton) := by
  have hlen := cstr_length s
  have hform : PrintCentered s (w : Int) pad =
      List.replicate (Int.tdiv ((w : Int) - (strlen s : Int)) 2 - 0).toNat pad ++
        ((cstr s).take ((w : Int) - 0).toNat).map String.singleton ++
        List.replicate ((w : Int) -
          (Int.tdiv ((w : Int) - (strlen s : Int)) 2 + (strlen s : Int))).toNat pad := by
    unfold PrintCentered
    simp only [padLoop_eq, charLoop_eq]
  have hw : ((w : Int) - 0).toNat = w := by omega
  rw [hw] at hform
  have hle : strlen s ≤ w →
      PrintCentered s (w : Int) pad =
        List.replicate ((w - strlen s) / 2) pad ++ (cstr s).map String.singleton ++
          List.replicate (w - strlen s - (w - strlen s) / 2) pad := by
    intro h
    have hd : Int.tdiv ((w : Int) - (strlen s : Int)) 2 = (((w - strlen s) / 2 : Nat) : Int) := by
      rw [tdiv_two_of_nonneg _ (by omega)]
      omega
    have e1 : ((((w - strlen s) / 2 : Nat) : Int) - 0).toNat = (w - strlen s) / 2 := by omega
    have e2 : ((w : Int) - ((((w - strlen s) / 2 : Nat) : Int) + (strlen s : Int))).toNat =
        w - strlen s - (w - strlen s) / 2 := by omega
    rw [hform, hd, e1, e2, List.take_of_length_le (by omega)]
  have hgt : w < strlen s →
      PrintCentered s (w : Int) pad = ((cstr s).take w).map String.singleton := by
    intro h
    have hd : Int.tdiv ((w : Int) - (strlen s : Int)) 2 =
        -((-((w : Int) - (strlen s : Int))) / 2) := tdiv_two_of_neg _ (by omega)
    have e1 : (Int.tdiv ((w : Int) - (strlen s : Int)) 2 - 0).toNat = 0 := by
      rw [hd]; omega
    have e2 : ((w : Int) -
        (Int.tdiv ((w : Int) - (strlen s : Int)) 2 + (strlen s : Int))).toNat = 0 := by
      rw [hd]; omega
    rw [hform, e1, e2]
    simp
  refine ⟨?_, fun h => ⟨hle h, by omega⟩, hgt⟩
  by_cases h : strlen s ≤ w
  · rw [hle h]
    simp only [List.length_append, List.length_replicate, List.length_map, hlen]
    omega
  · rw [hgt (by omega)]
    simp only [List.length_map, List.length_take, hlen]
    omega

/-- Witness of C21: `ab` in 5 cells has one pad on the left and two on the right; `Monday`
in 4 cells is cut to `Mond`. -/
theorem PrintCentered_width_witness :
    PrintCentered "ab".toList 5 " " = [" ", "a", "b", " ", " "] ∧
    PrintCentered "Monday".toList 4 " " = ["M", "o", "n", "d"] ∧
    (PrintCentered "ab".toList ((5 : Nat) : Int) " ").length = 5 ∧
    PrintCentered "Monday".toList ((4 : Nat) : Int) " " =
      ((cstr "Monday".toList).take 4).map String.singleton :=
  ⟨by decide, by decide, (PrintCentered_width "ab".toList 5 " ").1,
    (PrintCentered_width "Monday".toList 4 " ").2.2 (by decide)⟩

end Remind
